import Mathlib

/-!
# Verification of the compiler-to-model construction

This file gives a shallow embedding of
`packages/hardhat-core/src/internal/hardhat-network/stack-traces/compiler-to-model.ts`
and proves properties of the model construction: selector assignment,
inheritance linearization, bytecode decoding, custom-error modeling and
order (in)dependence of the build.

TypeScript maps (`Map<number, T>`) are embedded as association lists
`List (Nat × T)` in insertion order, with `Map.set` replacing an existing
key in place (as JavaScript maps do) and `Map.get` as `List.lookup`.
Mutable entity references (a `ContractFunction` pointing to its owning
`Contract`, a `SourceLocation` pointing to its `SourceFile`) are flattened
to the owner's name / the file's id and source name, so that the data is
acyclic; fields that downstream code reads through those references
(`contract.location.file.sourceName`) are kept.  Fallible `x.y` accesses on
possibly-`undefined` values and TypeScript non-null assertions (`!`) are
embedded as `Except String` failures.  Helper modules that the source file
imports but that are not part of the sources under verification are
modelled from the specification and marked `Modelled from the spec:` in
their doc comments.
-/

deriving instance DecidableEq for Except

namespace CompilerToModel

/-! ## Byte and character utilities -/

/-- A byte sequence (a Node `Buffer`); each entry is a byte value. -/
abbrev Bytes := List Nat

/-- The numeric value of one hexadecimal digit, if the character is one. -/
def hexDigitToNat? (c : Char) : Option Nat :=
  if '0' ≤ c ∧ c ≤ '9' then some (c.toNat - '0'.toNat)
  else if 'a' ≤ c ∧ c ≤ 'f' then some (c.toNat - 'a'.toNat + 10)
  else if 'A' ≤ c ∧ c ≤ 'F' then some (c.toNat - 'A'.toNat + 10)
  else none

/-- Decode pairs of hex digits into bytes, stopping at the first
incomplete or invalid pair, as `Buffer.from(s, "hex")` does. -/
def hexPairsToBytes : List Char → Bytes
  | c1 :: c2 :: rest =>
    match hexDigitToNat? c1, hexDigitToNat? c2 with
    | some hi, some lo => (16 * hi + lo) :: hexPairsToBytes rest
    | _, _ => []
  | _ => []

/-- `Buffer.from(s, "hex")`. -/
def hexDecode (s : String) : Bytes :=
  hexPairsToBytes s.data

/-- Split a character list on a separator character (like `String.split`).
Splitting the empty list yields one empty group, as in JavaScript. -/
def splitChars (sep : Char) : List Char → List (List Char)
  | [] => [[]]
  | c :: rest =>
    let groups := splitChars sep rest
    if c == sep then [] :: groups
    else
      match groups with
      | [] => [[c]]
      | g :: gs => (c :: g) :: gs

/-- Parse a decimal digit string into a number (helper accumulator form). -/
def parseNatCharsGo : List Char → Nat → Option Nat
  | [], acc => some acc
  | c :: rest, acc =>
    if '0' ≤ c ∧ c ≤ '9' then parseNatCharsGo rest (acc * 10 + (c.toNat - '0'.toNat))
    else none

/-- Parse a non-empty decimal digit string into a number. -/
def parseNatChars : List Char → Option Nat
  | [] => none
  | cs => parseNatCharsGo cs 0

/-- Parse an optionally-negated decimal string into an integer. -/
def parseIntChars : List Char → Option Int
  | '-' :: rest => (parseNatChars rest).map (fun n => -(n : Int))
  | cs => (parseNatChars cs).map (fun n => (n : Int))

/-! ## Association-list maps (JavaScript `Map` semantics) -/

/-- `Map.set`: replace the value of an existing key in place, otherwise
append the new entry at the end (JavaScript maps keep insertion order and
keep the original position when a key is re-set). -/
def mapSet {α : Type} [BEq α] {β : Type} (k : α) (v : β) : List (α × β) → List (α × β)
  | [] => [(k, v)]
  | (k', v') :: rest =>
    if k' == k then (k, v) :: rest
    else (k', v') :: mapSet k v rest

/-! ## The source/contract model entities -/

inductive ContractFunctionType where
  | FUNCTION
  | CONSTRUCTOR
  | FALLBACK
  | RECEIVE
  | FREE_FUNCTION
  | GETTER
  | MODIFIER
deriving DecidableEq

inductive ContractFunctionVisibility where
  | PRIVATE
  | INTERNAL
  | PUBLIC
  | EXTERNAL
deriving DecidableEq

inductive ContractType where
  | CONTRACT
  | LIBRARY
deriving DecidableEq

inductive JumpType where
  | NOT_JUMP
  | INTO_FUNCTION
  | OUTOF_FUNCTION
  | REGULAR_JUMP
deriving DecidableEq

/-- A resolved source range.  The reference to the owning `SourceFile`
is flattened to the file's id and source name (the fields read through it
downstream). -/
structure SourceLocation where
  fileId : Nat
  sourceName : String
  offset : Nat
  length : Nat
deriving DecidableEq

/-- A modeled function/getter/modifier.  The reference to the owning
`Contract` is flattened to the contract's name (`none` for free
functions). -/
structure ContractFunction where
  name : String
  functionType : ContractFunctionType
  location : SourceLocation
  contractName : Option String
  visibility : ContractFunctionVisibility
  isPayable : Bool
  selector : Option Bytes
  paramTypes : Option (List String)
deriving DecidableEq

structure CustomError where
  name : String
  paramTypes : List String
  selector : Bytes
deriving DecidableEq

/-- A modeled source file, owning the functions registered on it by
`file.addFunction`. -/
structure SourceFile where
  sourceName : String
  content : String
  functions : List ContractFunction
deriving DecidableEq

/-- A modeled contract.  `linearizedBaseContracts` holds the ids of the
resolved ancestor contracts (the code stores the contract objects the ids
resolve to; ids are the build-time keys of those objects).
`inheritedFunctions` is the effective function surface added by the
selector-correction pass. -/
structure Contract where
  name : String
  contractType : ContractType
  location : SourceLocation
  localFunctions : List ContractFunction
  linearizedBaseContracts : List Nat
  customErrors : List CustomError
  inheritedFunctions : List ContractFunction
deriving DecidableEq

structure Instruction where
  pc : Nat
  opcode : Nat
  pushData : Option Bytes
  location : Option SourceLocation
  jumpType : JumpType
deriving DecidableEq

structure ImmutableReference where
  start : Nat
  length : Nat
deriving DecidableEq

structure LinkReference where
  start : Nat
  length : Nat
deriving DecidableEq

/-- A decoded bytecode entity.  The mutable reference to the owning
`Contract` is embedded as a snapshot of the contract at decode time. -/
structure Bytecode where
  contract : Contract
  isDeployment : Bool
  normalizedCode : Bytes
  instructions : List Instruction
  libraryAddressPositions : List Nat
  immutableReferences : List ImmutableReference
  compilerVersion : String
deriving DecidableEq

/-! ## Compiler input/output (the data consumed from the compiler) -/

structure AbiInput where
  type : String
deriving DecidableEq

structure ContractAbiItem where
  type : String
  name : Option String
  inputs : Option (List AbiInput)
deriving DecidableEq

structure CompilerOutputBytecode where
  object : String
  sourceMap : String
  linkReferences : List (String × List (String × List LinkReference))
  immutableReferences : Option (List (String × List ImmutableReference))
deriving DecidableEq

structure ContractEvmOutput where
  bytecode : CompilerOutputBytecode
  deployedBytecode : CompilerOutputBytecode
deriving DecidableEq

structure CompilerOutputContract where
  abi : List ContractAbiItem
  evm : ContractEvmOutput
deriving DecidableEq

/-- The `start:length:fileIndex` location triple of an AST node. -/
structure AstSrc where
  start : Nat
  length : Nat
  fileIndex : Nat
deriving DecidableEq

structure AstTypeName where
  nodeType : String
  name : String
  typeString : String
deriving DecidableEq

/-- One declared parameter of a function definition.  The `isContract` and
`isEnum` flags embed the `isContractType` / `isEnumType` classification of
the parameter's type (performed on the AST type descriptions by helpers
that are not part of the sources under verification). -/
structure AstFunctionParameter where
  isContract : Bool
  isEnum : Bool
  typeName : AstTypeName
deriving DecidableEq

structure FunctionDefinitionNode where
  name : String
  kind : Option String
  src : AstSrc
  visibility : String
  stateMutability : String
  implemented : Option Bool
  functionSelector : Option String
  parameters : List AstFunctionParameter
deriving DecidableEq

structure ModifierDefinitionNode where
  name : String
  src : AstSrc
deriving DecidableEq

structure VariableDeclarationNode where
  name : String
  src : AstSrc
  visibility : String
deriving DecidableEq

inductive ContractSubNode where
  | functionDefinition (f : FunctionDefinitionNode)
  | modifierDefinition (m : ModifierDefinitionNode)
  | variableDeclaration (v : VariableDeclarationNode)
  | otherNode
deriving DecidableEq

structure ContractDefinitionNode where
  id : Nat
  name : String
  contractKind : Option String
  src : AstSrc
  linearizedBaseContracts : List Nat
  nodes : List ContractSubNode
deriving DecidableEq

inductive SourceAstNode where
  | contractDefinition (c : ContractDefinitionNode)
  | functionDefinition (f : FunctionDefinitionNode)
  | otherNode
deriving DecidableEq

structure SourceAst where
  nodes : List SourceAstNode
deriving DecidableEq

structure CompilerOutputSource where
  id : Nat
  ast : SourceAst
deriving DecidableEq

structure CompilerOutput where
  sources : List (String × CompilerOutputSource)
  contracts : List (String × List (String × CompilerOutputContract))
deriving DecidableEq

structure CompilerInputSource where
  content : String
deriving DecidableEq

structure CompilerInput where
  sources : List (String × CompilerInputSource)
deriving DecidableEq

abbrev FileMap := List (Nat × SourceFile)

abbrev ContractMap := List (Nat × Contract)

abbrev BasesMap := List (Nat × List Nat)

/-! ## Helpers modelled from the spec

The following definitions embed functions the source file imports from
modules that are not part of the sources under verification
(`@nomicfoundation/edr`, `model.ts`, `library-utils.ts`, `source-maps.ts`,
`ethereumjs-abi`). -/

/-- Modelled from the spec: `abi.methodID` from `ethereumjs-abi` (not under
the verified sources).  Glossary: a selector is the 4-byte hash of the
canonical signature `name(type1,...,typeN)`.  The hash internals are
outside the spec; the hash is modelled as the byte encoding of the
canonical signature itself (deterministic and signature-injective, which
is what every verified property depends on). -/
def joinTypesWithComma : List String → List Char
  | [] => []
  | [t] => t.data
  | t :: ts => t.data ++ ',' :: joinTypesWithComma ts

def methodID (name : String) (paramTypes : List String) : Bytes :=
  (name.data ++ '(' :: (joinTypesWithComma paramTypes ++ [')'])).map Char.toNat

/-- Modelled from the spec: `astSrcToSourceLocation` from
`@nomicfoundation/edr` (not under the verified sources).  §3: a
`SourceLocation` is derived from a `start:length:fileIndex` AST triple;
§3 invariants: the file id must resolve to a modeled `SourceFile`
(`none` when it does not). -/
def astSrcToSourceLocation (src : AstSrc) (files : FileMap) : Option SourceLocation :=
  match List.lookup src.fileIndex files with
  | none => none
  | some f => some { fileId := src.fileIndex, sourceName := f.sourceName,
                     offset := src.start, length := src.length }

/-- Modelled from the spec: `astVisibilityToVisibility` from
`@nomicfoundation/edr` (not under the verified sources).  §3 lists the
visibilities PUBLIC/EXTERNAL/INTERNAL/PRIVATE; the AST strings map to the
matching enum value (any other string is treated as external, the default
visibility of compiler-generated entries). -/
def astVisibilityToVisibility (visibility : String) : ContractFunctionVisibility :=
  if visibility == "private" then ContractFunctionVisibility.PRIVATE
  else if visibility == "internal" then ContractFunctionVisibility.INTERNAL
  else if visibility == "public" then ContractFunctionVisibility.PUBLIC
  else ContractFunctionVisibility.EXTERNAL

/-- Modelled from the spec: `toCanonicalAbiType` from
`@nomicfoundation/edr` (not under the verified sources).  §4.1 step 4:
the canonical ABI form of a declared elementary type name (the compiler
aliases expand to their canonical widths; every other name is already
canonical). -/
def toCanonicalAbiType (t : String) : String :=
  if t == "uint" then "uint256"
  else if t == "int" then "int256"
  else if t == "byte" then "bytes1"
  else if t == "fixed" then "fixed128x18"
  else if t == "ufixed" then "ufixed128x18"
  else t

/-- Modelled from the spec: `CustomError.fromABI` from `model.ts` (not
under the verified sources).  §4.4: build a `CustomError` from an ABI
error entry's declared name and parameter types, computing its selector
the same way as a function selector; §3/§4.1: construction is best-effort
and fails on unsupported parameter typing, modelled as a struct (tuple)
typed input or a missing name. -/
def abiTypeSupportedForCustomError (t : String) : Bool :=
  !(List.isPrefixOf "tuple".data t.data)

def CustomError.fromABI (name : Option String) (inputs : Option (List AbiInput)) :
    Option CustomError :=
  match name with
  | none => none
  | some n =>
    let inputList := inputs.getD []
    if inputList.all (fun i => abiTypeSupportedForCustomError i.type) then
      some { name := n
             paramTypes := inputList.map AbiInput.type
             selector := methodID n (inputList.map AbiInput.type) }
    else none

/-- Modelled from the spec: `getLibraryAddressPositions` from
`library-utils.ts` (not under the verified sources).  §4.2 step 1 with §6:
the byte offset of every library-link placeholder occurrence, taken from
the compiler-provided link-reference table. -/
def getLibraryAddressPositions (cb : CompilerOutputBytecode) : List Nat :=
  cb.linkReferences.flatMap (fun fileEntry =>
    fileEntry.2.flatMap (fun libEntry => libEntry.2.map LinkReference.start))

/-- Zero one byte range of a byte sequence (helper for normalization). -/
def zeroOutRangeGo : Bytes → Nat → Nat → Nat → Bytes
  | [], _, _, _ => []
  | b :: rest, idx, pos, len =>
    (if pos ≤ idx ∧ idx < pos + len then 0 else b) :: zeroOutRangeGo rest (idx + 1) pos len

/-- Modelled from the spec: `normalizeCompilerOutputBytecode` from
`library-utils.ts` (not under the verified sources).  §4.2 step 1: decode
the bytecode hex and zero-fill the 20-byte library placeholder region at
every recorded position. -/
def normalizeCompilerOutputBytecode (object : String) (positions : List Nat) : Bytes :=
  positions.foldl (fun acc p => zeroOutRangeGo acc 0 p 20) (hexDecode object)

/-- One uncompressed source-map entry: source byte offset, length, source
file index, and the jump annotation letter. -/
structure SourceMapLocation where
  offset : Int
  length : Int
  file : Int
  jump : String
deriving DecidableEq

/-- Modelled from the spec: the compressed source-map decoder state from
`source-maps.ts` (not under the verified sources).  §4.2 step 3 / §9:
each `;`-separated entry lists `offset:length:file:jump` fields; any field
omitted in an entry inherits the previous entry's value. -/
def nextSourceMapEntry (prev : SourceMapLocation) (entry : List Char) : SourceMapLocation :=
  let fields := splitChars ':' entry
  let f0 := fields.getD 0 []
  let f1 := fields.getD 1 []
  let f2 := fields.getD 2 []
  let f3 := fields.getD 3 []
  { offset := if f0.isEmpty then prev.offset else (parseIntChars f0).getD prev.offset
    length := if f1.isEmpty then prev.length else (parseIntChars f1).getD prev.length
    file := if f2.isEmpty then prev.file else (parseIntChars f2).getD prev.file
    jump := if f3.isEmpty then prev.jump else String.mk f3 }

def uncompressSourceMapGo (prev : SourceMapLocation) : List (List Char) → List SourceMapLocation
  | [] => []
  | e :: rest =>
    let cur := nextSourceMapEntry prev e
    cur :: uncompressSourceMapGo cur rest

def initialSourceMapLocation : SourceMapLocation :=
  { offset := -1, length := -1, file := -1, jump := "-" }

def uncompressSourceMap (sourceMap : String) : List SourceMapLocation :=
  uncompressSourceMapGo initialSourceMapLocation (splitChars ';' sourceMap.data)

/-- Modelled from the spec: resolving one source-map entry against the
file model (§4.2 step 3): look the file index up in the file model and
materialize the byte range; if the referenced file is not found the
instruction carries no location. -/
def resolveSourceMapLocation (files : FileMap) (sm : SourceMapLocation) :
    Option SourceLocation :=
  if sm.file < 0 ∨ sm.offset < 0 ∨ sm.length < 0 then none
  else
    match List.lookup sm.file.toNat files with
    | none => none
    | some f => some { fileId := sm.file.toNat, sourceName := f.sourceName,
                       offset := sm.offset.toNat, length := sm.length.toNat }

/-- §4.2 step 3: the jump classification of an instruction, from the
source-map jump letter and the opcode. -/
def jumpLetterToJumpType (opcode : Nat) (letter : String) : JumpType :=
  if letter == "i" then JumpType.INTO_FUNCTION
  else if letter == "o" then JumpType.OUTOF_FUNCTION
  else if opcode == 0x56 || opcode == 0x57 then JumpType.REGULAR_JUMP
  else JumpType.NOT_JUMP

def isPushOpcode (opcode : Nat) : Bool :=
  0x60 ≤ opcode && opcode ≤ 0x7f

/-- Modelled from the spec: the instruction scan of `decodeInstructions`
from `source-maps.ts` (not under the verified sources).  §4.2 steps 3-4:
scan the normalized bytes left to right; push-family opcodes consume 1-32
following bytes as immediate data; in lockstep consume one source-map
entry per instruction; trailing bytes shorter than a push demands are
non-program data and decoding stops there. -/
def decodeInstructionsLoop (files : FileMap) :
    Nat → Bytes → List SourceMapLocation → Nat → List Instruction
  | 0, _, _, _ => []
  | _ + 1, [], _, _ => []
  | fuel + 1, opcode :: rest, locs, pc =>
    let sm := locs.headD initialSourceMapLocation
    let location := resolveSourceMapLocation files sm
    let jumpType := jumpLetterToJumpType opcode sm.jump
    if isPushOpcode opcode then
      let pushLen := opcode - 0x5f
      if rest.length < pushLen then []
      else
        { pc := pc, opcode := opcode, pushData := some (rest.take pushLen),
          location := location, jumpType := jumpType }
          :: decodeInstructionsLoop files fuel (rest.drop pushLen) locs.tail (pc + 1 + pushLen)
    else
      { pc := pc, opcode := opcode, pushData := none,
        location := location, jumpType := jumpType }
        :: decodeInstructionsLoop files fuel rest locs.tail (pc + 1)

def decodeInstructions (code : Bytes) (sourceMap : String) (files : FileMap)
    (_isDeployment : Bool) : List Instruction :=
  decodeInstructionsLoop files code.length code (uncompressSourceMap sourceMap) 0

/-- Modelled from the spec: `processModifierDefinitionAstNode` from
`@nomicfoundation/edr` (not under the verified sources).  §4.1 step 3:
nested modifier nodes are modeled analogously to functions, producing an
internal MODIFIER entry on the contract and the file. -/
def modifierToContractFunction (node : ModifierDefinitionNode) (loc : SourceLocation)
    (contract : Contract) : ContractFunction :=
  { name := node.name, functionType := ContractFunctionType.MODIFIER, location := loc,
    contractName := some contract.name, visibility := ContractFunctionVisibility.INTERNAL,
    isPayable := false, selector := none, paramTypes := none }

/-- Modelled from the spec: `processVariableDeclarationAstNode` from
`@nomicfoundation/edr` (not under the verified sources).  §4.1 step 3:
public-state-variable getters are modeled analogously when an ABI entry
declares them, producing a public GETTER entry on the contract and the
file (`none` when no getter is to be modeled). -/
def variableDeclarationToGetter (node : VariableDeclarationNode) (loc : SourceLocation)
    (contract : Contract) (getterAbi : Option ContractAbiItem) : Option ContractFunction :=
  if node.visibility == "public" then
    match getterAbi with
    | none => none
    | some _ =>
      some { name := node.name, functionType := ContractFunctionType.GETTER, location := loc,
             contractName := some contract.name,
             visibility := ContractFunctionVisibility.PUBLIC,
             isPayable := false, selector := none, paramTypes := none }
  else none

/-! ## The embedding of `compiler-to-model.ts` -/

/-- `functionDefinitionKindToFunctionType` (lines 552-572): any kind other
than constructor/fallback/receive/freeFunction — including an absent kind
from older compilers — is an ordinary function. -/
def functionDefinitionKindToFunctionType (kind : Option String) : ContractFunctionType :=
  if kind == some "constructor" then ContractFunctionType.CONSTRUCTOR
  else if kind == some "fallback" then ContractFunctionType.FALLBACK
  else if kind == some "receive" then ContractFunctionType.RECEIVE
  else if kind == some "freeFunction" then ContractFunctionType.FREE_FUNCTION
  else ContractFunctionType.FUNCTION

/-- `contractKindToContractType` (lines 538-550). -/
def contractKindToContractType (contractKind : Option String) : Option ContractType :=
  if contractKind == some "library" then some ContractType.LIBRARY
  else if contractKind == some "contract" then some ContractType.CONTRACT
  else none

/-- The parameter-type accumulation loop of `astFunctionDefinitionToSelector`
(lines 582-616): each parameter pushes one canonical type string. -/
def selectorParamTypesLoop : List AstFunctionParameter → List String → List String
  | [], paramTypes => paramTypes
  | param :: rest, paramTypes =>
    if param.isContract then
      selectorParamTypesLoop rest (paramTypes ++ ["address"])
    else if param.isEnum then
      selectorParamTypesLoop rest (paramTypes ++ ["uint8"])
    else if param.typeName.nodeType == "ArrayTypeName"
        || param.typeName.nodeType == "FunctionTypeName"
        || param.typeName.nodeType == "Mapping" then
      selectorParamTypesLoop rest (paramTypes ++ [param.typeName.typeString])
    else
      selectorParamTypesLoop rest (paramTypes ++ [toCanonicalAbiType param.typeName.name])

/-- `astFunctionDefinitionToSelector` (lines 574-618): an explicit
`functionSelector` is hex-decoded and returned; otherwise the selector is
the signature hash over the accumulated canonical parameter types. -/
def astFunctionDefinitionToSelector (node : FunctionDefinitionNode) : Bytes :=
  match node.functionSelector with
  | some s => hexDecode s
  | none => methodID node.name (selectorParamTypesLoop node.parameters [])

/-- The overload-matching predicate of `processFunctionDefinitionAstNode`
(lines 385-400): an ABI entry matches when it has a name and its selector,
recomputed from that name and its declared input types, equals the
function's computed selector. -/
def abiEntryMatchesSelector (selector : Option Bytes) (functionAbi : ContractAbiItem) : Bool :=
  match functionAbi.name with
  | none => false
  | some abiName =>
    match selector with
    | none => false
    | some sel =>
      methodID abiName ((functionAbi.inputs.getD []).map AbiInput.type) == sel

/-- `processFunctionDefinitionAstNode` (lines 353-420).  Returns `ok none`
for a skipped (unimplemented) declaration and `ok (some f)` for a produced
`ContractFunction`; the additions of the produced function to the owning
contract's and the file's function lists (lines 415-419) are performed by
the callers in this embedding, which thread those entities explicitly.
The failed non-null assertion on an unresolvable location is an error. -/
def processFunctionDefinitionAstNode (node : FunctionDefinitionNode) (files : FileMap)
    (contract : Option Contract) (functionAbis : Option (List ContractAbiItem)) :
    Except String (Option ContractFunction) :=
  if node.implemented == some false then
    Except.ok none
  else
    match astSrcToSourceLocation node.src files with
    | none => Except.error "unresolved source location for function definition"
    | some functionLocation =>
      let functionType := functionDefinitionKindToFunctionType node.kind
      let visibility := astVisibilityToVisibility node.visibility
      let selector : Option Bytes :=
        if functionType == ContractFunctionType.FUNCTION
            && (visibility == ContractFunctionVisibility.EXTERNAL
                || visibility == ContractFunctionVisibility.PUBLIC) then
          some (astFunctionDefinitionToSelector node)
        else
          none
      let matchingFunctionAbi := (functionAbis.getD []).find? (abiEntryMatchesSelector selector)
      let paramTypes := (matchingFunctionAbi.bind ContractAbiItem.inputs).map (List.map AbiInput.type)
      Except.ok (some
        { name := node.name
          functionType := functionType
          location := functionLocation
          contractName := contract.map Contract.name
          visibility := visibility
          isPayable := node.stateMutability == "payable"
          selector := selector
          paramTypes := paramTypes })

/-- One step of the contract-body walk of `processContractAstNode`
(lines 318-350): function definitions, modifier definitions and variable
declarations each may add one entry to the contract's local functions and
to the file's functions. -/
def processContractSubNode (files : FileMap) (contractAbi : Option (List ContractAbiItem))
    (subNode : ContractSubNode) (contract : Contract) (file : SourceFile) :
    Except String (Contract × SourceFile) :=
  match subNode with
  | ContractSubNode.functionDefinition node =>
    let functionAbis := contractAbi.map (List.filter (fun abiEntry => abiEntry.name == some node.name))
    match processFunctionDefinitionAstNode node files (some contract) functionAbis with
    | Except.error e => Except.error e
    | Except.ok none => Except.ok (contract, file)
    | Except.ok (some contractFunc) =>
      Except.ok ({ contract with localFunctions := contract.localFunctions ++ [contractFunc] },
                 { file with functions := file.functions ++ [contractFunc] })
  | ContractSubNode.modifierDefinition node =>
    match astSrcToSourceLocation node.src files with
    | none => Except.error "unresolved source location for modifier definition"
    | some loc =>
      let contractFunc := modifierToContractFunction node loc contract
      Except.ok ({ contract with localFunctions := contract.localFunctions ++ [contractFunc] },
                 { file with functions := file.functions ++ [contractFunc] })
  | ContractSubNode.variableDeclaration node =>
    let getterAbi := contractAbi.bind (List.find? (fun abiEntry => abiEntry.name == some node.name))
    match astSrcToSourceLocation node.src files with
    | none => Except.error "unresolved source location for variable declaration"
    | some loc =>
      match variableDeclarationToGetter node loc contract getterAbi with
      | none => Except.ok (contract, file)
      | some contractFunc =>
        Except.ok ({ contract with localFunctions := contract.localFunctions ++ [contractFunc] },
                   { file with functions := file.functions ++ [contractFunc] })
  | ContractSubNode.otherNode => Except.ok (contract, file)

def processContractNodesGo (files : FileMap) (contractAbi : Option (List ContractAbiItem)) :
    List ContractSubNode → Contract × SourceFile → Except String (Contract × SourceFile)
  | [], st => Except.ok st
  | subNode :: rest, st => do
    let st' ← processContractSubNode files contractAbi subNode st.1 st.2
    processContractNodesGo files contractAbi rest st'

/-- `processContractAstNode` (lines 292-351): create the contract, record
its id and its compiler-provided linearized base contract ids, and walk
its body nodes. -/
def processContractAstNode (file : SourceFile) (contractNode : ContractDefinitionNode)
    (files : FileMap) (contractType : ContractType) (contractIdToContract : ContractMap)
    (basesMap : BasesMap) (contractAbi : Option (List ContractAbiItem)) :
    Except String (SourceFile × ContractMap × BasesMap) :=
  match astSrcToSourceLocation contractNode.src files with
  | none => Except.error "unresolved source location for contract definition"
  | some contractLocation =>
    let contract0 : Contract :=
      { name := contractNode.name, contractType := contractType,
        location := contractLocation, localFunctions := [],
        linearizedBaseContracts := [], customErrors := [], inheritedFunctions := [] }
    let basesMap' := mapSet contractNode.id contractNode.linearizedBaseContracts basesMap
    do
      let (contractF, fileF) ← processContractNodesGo files contractAbi contractNode.nodes (contract0, file)
      Except.ok (fileF, mapSet contractNode.id contractF contractIdToContract, basesMap')

/-- One step of the top-level node walk of `createSourcesModelFromAst`
(lines 254-283): contract definitions of a modeled kind are processed with
the contract's ABI; top-level function definitions become free functions
recorded on the file. -/
def processSourceAstNode (files : FileMap)
    (contractToAbi : Option (List (String × List ContractAbiItem)))
    (node : SourceAstNode) (st : SourceFile × ContractMap × BasesMap) :
    Except String (SourceFile × ContractMap × BasesMap) :=
  match node with
  | SourceAstNode.contractDefinition contractNode =>
    match contractKindToContractType contractNode.contractKind with
    | none => Except.ok st
    | some contractType =>
      let contractAbi := contractToAbi.bind (List.lookup contractNode.name)
      processContractAstNode st.1 contractNode files contractType st.2.1 st.2.2 contractAbi
  | SourceAstNode.functionDefinition node =>
    match processFunctionDefinitionAstNode node files none none with
    | Except.error e => Except.error e
    | Except.ok none => Except.ok st
    | Except.ok (some contractFunc) =>
      Except.ok ({ st.1 with functions := st.1.functions ++ [contractFunc] }, st.2.1, st.2.2)
  | SourceAstNode.otherNode => Except.ok st

def processSourceNodesGo (files : FileMap)
    (contractToAbi : Option (List (String × List ContractAbiItem))) :
    List SourceAstNode → SourceFile × ContractMap × BasesMap →
    Except String (SourceFile × ContractMap × BasesMap)
  | [], st => Except.ok st
  | node :: rest, st => do
    let st' ← processSourceAstNode files contractToAbi node st
    processSourceNodesGo files contractToAbi rest st'

/-- The `sourceName => contractName => abi` mapping built at lines
226-235. -/
def buildAbiMap (output : CompilerOutput) : List (String × List (String × List ContractAbiItem)) :=
  output.contracts.map (fun entry => (entry.1, entry.2.map (fun c => (c.1, c.2.abi))))

/-- Processing of one source entry (lines 237-284): create the
`SourceFile`, register it under its AST-assigned id, and walk the file's
top-level nodes.  The file registered before the walk is the freshly
created one; the walked file (with its functions) replaces it at the same
key afterwards, which is how the in-place mutation of the file object
shows up in a pure embedding. -/
def processSource (input : CompilerInput)
    (abiMap : List (String × List (String × List ContractAbiItem)))
    (st : FileMap × ContractMap × BasesMap) (entry : String × CompilerOutputSource) :
    Except String (FileMap × ContractMap × BasesMap) :=
  let sourceName := entry.1
  let source := entry.2
  match List.lookup sourceName input.sources with
  | none => Except.error "missing source content in compiler input"
  | some inputSource =>
    let file0 : SourceFile := { sourceName := sourceName, content := inputSource.content,
                                functions := [] }
    let files0 := mapSet source.id file0 st.1
    do
      let (fileF, cmapF, bmapF) ←
        processSourceNodesGo files0 (List.lookup sourceName abiMap) source.ast.nodes
          (file0, st.2.1, st.2.2)
      Except.ok (mapSet source.id fileF files0, cmapF, bmapF)

def registerSourcesGo (input : CompilerInput)
    (abiMap : List (String × List (String × List ContractAbiItem))) :
    List (String × CompilerOutputSource) → FileMap × ContractMap × BasesMap →
    Except String (FileMap × ContractMap × BasesMap)
  | [], st => Except.ok st
  | entry :: rest, st => do
    let st' ← processSource input abiMap st entry
    registerSourcesGo input abiMap rest st'

/-- The first pass of `createSourcesModelFromAst` (lines 226-284):
register every source file and every contract of every file. -/
def registerAllSources (output : CompilerOutput) (input : CompilerInput) :
    Except String (FileMap × ContractMap × BasesMap) :=
  registerSourcesGo input (buildAbiMap output) output.sources ([], [], [])

/-- A monadic map for `Except` used by the second pass. -/
def exceptMapM {α β : Type} (f : α → Except String β) : List α → Except String (List β)
  | [] => Except.ok []
  | a :: rest => do
    let b ← f a
    let bs ← exceptMapM f rest
    Except.ok (b :: bs)

/-- `applyContractsInheritance` (lines 423-441): for each registered
contract, resolve each compiler-provided ancestor id against the contract
map, silently skipping ids that do not resolve, and append the resolved
ancestors in order.  The missing-bases lookup is the non-null assertion of
line 428. -/
def applyContractsInheritance (contractIdToContract : ContractMap) (basesMap : BasesMap) :
    Except String ContractMap :=
  exceptMapM (fun entry =>
    match List.lookup entry.1 basesMap with
    | none => Except.error "missing linearized base contracts for contract"
    | some inheritanceIds =>
      Except.ok (entry.1,
        { entry.2 with
          linearizedBaseContracts :=
            inheritanceIds.filter (fun baseId =>
              (List.lookup baseId contractIdToContract).isSome) }))
    contractIdToContract

structure SourcesModel where
  fileIdToSourceFile : FileMap
  contractIdToContract : ContractMap
deriving DecidableEq

/-- `createSourcesModelFromAst` (lines 217-290): first register every
source and contract, then (second pass) apply the inheritance
resolution against the completed contract map. -/
def createSourcesModelFromAst (output : CompilerOutput) (input : CompilerInput) :
    Except String SourcesModel := do
  let (files, cmap, bmap) ← registerAllSources output input
  let cmap' ← applyContractsInheritance cmap bmap
  Except.ok { fileIdToSourceFile := files, contractIdToContract := cmap' }

/-- `decodeEvmBytecode` (lines 498-536). -/
def decodeEvmBytecode (contract : Contract) (solcVersion : String) (isDeployment : Bool)
    (compilerBytecode : CompilerOutputBytecode) (files : FileMap) : Bytecode :=
  let libraryAddressPositions := getLibraryAddressPositions compilerBytecode
  let immutableReferences :=
    match compilerBytecode.immutableReferences with
    | some refs => (refs.map Prod.snd).foldl (fun acc l => acc ++ l) []
    | none => []
  let normalizedCode := normalizeCompilerOutputBytecode compilerBytecode.object libraryAddressPositions
  let instructions := decodeInstructions normalizedCode compilerBytecode.sourceMap files isDeployment
  { contract := contract, isDeployment := isDeployment, normalizedCode := normalizedCode,
    instructions := instructions, libraryAddressPositions := libraryAddressPositions,
    immutableReferences := immutableReferences, compilerVersion := solcVersion }

/-- The diagnostic logged at line 465 for a custom error that could not be
built (the JavaScript template renders an absent name as `undefined`). -/
def customErrorDiagnostic (abiItem : ContractAbiItem) : String :=
  "could not build CustomError for error " ++ abiItem.name.getD "undefined"

/-- The custom-error loop of `decodeBytecodes` (lines 458-468): every ABI
entry of type error either adds a `CustomError` to the contract or logs a
diagnostic, before the abstract-contract check. -/
def buildCustomErrors (contract : Contract) (abi : List ContractAbiItem) :
    Contract × List String :=
  abi.foldl (fun acc abiItem =>
    if abiItem.type == "error" then
      match CustomError.fromABI abiItem.name abiItem.inputs with
      | some customError =>
        ({ acc.1 with customErrors := acc.1.customErrors ++ [customError] }, acc.2)
      | none => (acc.1, acc.2 ++ [customErrorDiagnostic abiItem])
    else acc) (contract, [])

/-- The per-contract body of the `decodeBytecodes` loop (lines 451-493):
look the contract up in the compiler output, build its custom errors,
then either skip it (empty bytecode object, an abstract contract) or
produce its deployment and runtime bytecodes. -/
def decodeContractBytecodes (solcVersion : String) (output : CompilerOutput) (files : FileMap)
    (entry : Nat × Contract) : Except String (List Bytecode × (Nat × Contract) × List String) :=
  match (List.lookup entry.2.location.sourceName output.contracts).bind
      (List.lookup entry.2.name) with
  | none => Except.error "missing contract in compiler output"
  | some contractOutput =>
    match buildCustomErrors entry.2 contractOutput.abi with
    | (contract', diags) =>
      if contractOutput.evm.bytecode.object == "" then
        Except.ok ([], (entry.1, contract'), diags)
      else
        Except.ok
          ([decodeEvmBytecode contract' solcVersion true contractOutput.evm.bytecode files,
            decodeEvmBytecode contract' solcVersion false contractOutput.evm.deployedBytecode
              files],
           (entry.1, contract'), diags)

structure DecodeOutput where
  bytecodes : List Bytecode
  contracts : ContractMap
  diagnostics : List String
deriving DecidableEq

/-- `decodeBytecodes` (lines 443-496), with the diagnostics that the
source logs accumulated explicitly and the mutated contract map returned
alongside the bytecode list. -/
def decodeBytecodesGo (solcVersion : String) (output : CompilerOutput) (files : FileMap) :
    ContractMap → Except String DecodeOutput
  | [] => Except.ok { bytecodes := [], contracts := [], diagnostics := [] }
  | entry :: rest => do
    let (bcs, entry', diags) ← decodeContractBytecodes solcVersion output files entry
    let out ← decodeBytecodesGo solcVersion output files rest
    Except.ok { bytecodes := bcs ++ out.bytecodes,
                contracts := entry' :: out.contracts,
                diagnostics := diags ++ out.diagnostics }

def decodeBytecodes (solcVersion : String) (output : CompilerOutput) (files : FileMap)
    (contractIdToContract : ContractMap) : Except String DecodeOutput :=
  decodeBytecodesGo solcVersion output files contractIdToContract

/-- Modelled from the spec: `correctSelectors` from `@nomicfoundation/edr`
(not under the verified sources).  §4.3: after all contracts are modeled,
for every contract and every externally reachable function inherited but
not locally re-declared, propagate the selector resolved at the defining
ancestor down to the inheriting contract's effective function surface. -/
def inheritedFunctionSurface (contractMap : ContractMap) (contract : Contract) :
    List ContractFunction :=
  contract.linearizedBaseContracts.flatMap (fun baseId =>
    match List.lookup baseId contractMap with
    | none => []
    | some base =>
      base.localFunctions.filter (fun f =>
        f.selector.isSome &&
          !(contract.localFunctions.any (fun g => g.name == f.name))))

def correctSelectors (bytecodes : List Bytecode) (contractMap : ContractMap) :
    List Bytecode :=
  bytecodes.map (fun bc =>
    { bc with contract :=
        { bc.contract with
          inheritedFunctions := inheritedFunctionSurface contractMap bc.contract } })

/-- `createModelsAndDecodeBytecodes` (lines 190-215): build the source
model, decode every contract's bytecodes, and run the selector-correction
pass over the completed set. -/
def createModelsAndDecodeBytecodes (solcVersion : String) (input : CompilerInput)
    (output : CompilerOutput) : Except String (List Bytecode) := do
  let model ← createSourcesModelFromAst output input
  let decoded ← decodeBytecodes solcVersion output model.fileIdToSourceFile
    model.contractIdToContract
  Except.ok (correctSelectors decoded.bytecodes decoded.contracts)

/-! ## Specification-side characterizations -/

/-- The compiler-output entry of a contract (the two-step indexing of
lines 452-456). -/
def evmOutputFor (output : CompilerOutput) (contract : Contract) :
    Option CompilerOutputContract :=
  (List.lookup contract.location.sourceName output.contracts).bind
    (List.lookup contract.name)

/-- The contract after the custom-error loop: its recorded custom errors
extend by exactly the successfully constructed ones, in ABI order. -/
def contractErrorsResolved (contract : Contract) (abi : List ContractAbiItem) : Contract :=
  { contract with
    customErrors := contract.customErrors ++
      (abi.filter (fun i => i.type == "error")).filterMap
        (fun i => CustomError.fromABI i.name i.inputs) }

/-- The bytecode entities one contract contributes to the decode output:
none when its bytecode object is empty, otherwise the deployment entity
(from `bytecode`) followed by the runtime entity (from
`deployedBytecode`). -/
def contractBytecodeContribution (solcVersion : String) (output : CompilerOutput)
    (files : FileMap) (entry : Nat × Contract) : List Bytecode :=
  match evmOutputFor output entry.2 with
  | none => []
  | some oc =>
    if oc.evm.bytecode.object == "" then []
    else
      [decodeEvmBytecode (contractErrorsResolved entry.2 oc.abi) solcVersion true
         oc.evm.bytecode files,
       decodeEvmBytecode (contractErrorsResolved entry.2 oc.abi) solcVersion false
         oc.evm.deployedBytecode files]

/-- The contract-map entry after the decode pass. -/
def contractAfterDecode (output : CompilerOutput) (entry : Nat × Contract) :
    Nat × Contract :=
  match evmOutputFor output entry.2 with
  | none => entry
  | some oc => (entry.1, contractErrorsResolved entry.2 oc.abi)

/-- The diagnostics one contract's ABI produces: one per error entry whose
custom-error construction fails. -/
def contractDiagnostics (output : CompilerOutput) (entry : Nat × Contract) : List String :=
  match evmOutputFor output entry.2 with
  | none => []
  | some oc =>
    (oc.abi.filter (fun i =>
        i.type == "error" && (CustomError.fromABI i.name i.inputs).isNone)).map
      customErrorDiagnostic

/-- The canonicalization of one declared parameter type as the
specification phrases it (§4.1 step 4): contract-typed parameters
canonicalize to address, enum-typed to uint8, array/function/mapping
type names use their full declared type string, and the rest use the
canonical ABI form of their type name. -/
def specCanonicalParamType (p : AstFunctionParameter) : String :=
  if p.isContract then "address"
  else if p.isEnum then "uint8"
  else if p.typeName.nodeType == "ArrayTypeName"
      || p.typeName.nodeType == "FunctionTypeName"
      || p.typeName.nodeType == "Mapping" then p.typeName.typeString
  else toCanonicalAbiType p.typeName.name

/-- The selector a processed node is assigned (the `selector` local of
lines 375-382). -/
def processedSelector (node : FunctionDefinitionNode) : Option Bytes :=
  if functionDefinitionKindToFunctionType node.kind == ContractFunctionType.FUNCTION
      && (astVisibilityToVisibility node.visibility == ContractFunctionVisibility.EXTERNAL
          || astVisibilityToVisibility node.visibility == ContractFunctionVisibility.PUBLIC) then
    some (astFunctionDefinitionToSelector node)
  else none

/-- The `ContractFunction` a successfully processed node produces. -/
def producedContractFunction (node : FunctionDefinitionNode) (loc : SourceLocation)
    (contract : Option Contract) (functionAbis : Option (List ContractAbiItem)) :
    ContractFunction :=
  { name := node.name
    functionType := functionDefinitionKindToFunctionType node.kind
    location := loc
    contractName := contract.map Contract.name
    visibility := astVisibilityToVisibility node.visibility
    isPayable := node.stateMutability == "payable"
    selector := processedSelector node
    paramTypes :=
      (((functionAbis.getD []).find?
          (abiEntryMatchesSelector (processedSelector node))).bind
        ContractAbiItem.inputs).map (List.map AbiInput.type) }

def exFileA : SourceFile :=
  { sourceName := "A.sol", content := "contract A { }", functions := [] }

def exFiles : FileMap := [(0, exFileA)]

def exNodeC1 : FunctionDefinitionNode :=
  { name := "f", kind := some "function",
    src := { start := 13, length := 20, fileIndex := 0 },
    visibility := "public", stateMutability := "nonpayable",
    implemented := some true, functionSelector := some "aabbccdd", parameters := [] }

def exFunC1 : ContractFunction :=
  { name := "f", functionType := ContractFunctionType.FUNCTION,
    location := { fileId := 0, sourceName := "A.sol", offset := 13, length := 20 },
    contractName := none, visibility := ContractFunctionVisibility.PUBLIC,
    isPayable := false, selector := some [170, 187, 204, 221], paramTypes := none }

def exNodeC2 : FunctionDefinitionNode :=
  { name := "g", kind := none,
    src := { start := 13, length := 20, fileIndex := 0 },
    visibility := "external", stateMutability := "payable",
    implemented := none, functionSelector := none,
    parameters :=
      [ { isContract := true, isEnum := false,
          typeName := { nodeType := "UserDefinedTypeName", name := "A",
                        typeString := "contract A" } },
        { isContract := false, isEnum := false,
          typeName := { nodeType := "ElementaryTypeName", name := "uint",
                        typeString := "uint256" } } ] }

def exSelC2 : Bytes := methodID "g" ["address", "uint256"]

def exFunC2 : ContractFunction :=
  { name := "g", functionType := ContractFunctionType.FUNCTION,
    location := { fileId := 0, sourceName := "A.sol", offset := 13, length := 20 },
    contractName := none, visibility := ContractFunctionVisibility.EXTERNAL,
    isPayable := true, selector := some exSelC2, paramTypes := none }

def exAbiC6 : List ContractAbiItem :=
  [ { type := "function", name := some "h", inputs := some [{ type := "uint256" }] },
    { type := "function", name := some "h", inputs := some [{ type := "address" }] },
    { type := "function", name := some "other", inputs := some [] } ]

def exNodeC6 : FunctionDefinitionNode :=
  { name := "h", kind := some "function",
    src := { start := 13, length := 20, fileIndex := 0 },
    visibility := "public", stateMutability := "nonpayable",
    implemented := some true, functionSelector := none,
    parameters :=
      [ { isContract := true, isEnum := false,
          typeName := { nodeType := "UserDefinedTypeName", name := "A",
                        typeString := "contract A" } } ] }

def exFunC6 : ContractFunction :=
  { name := "h", functionType := ContractFunctionType.FUNCTION,
    location := { fileId := 0, sourceName := "A.sol", offset := 13, length := 20 },
    contractName := none, visibility := ContractFunctionVisibility.PUBLIC,
    isPayable := false, selector := some (methodID "h" ["address"]),
    paramTypes := some ["address"] }

def exNodeC7 : FunctionDefinitionNode :=
  { name := "abstractFn", kind := some "function",
    src := { start := 5, length := 9, fileIndex := 77 },
    visibility := "public", stateMutability := "nonpayable",
    implemented := some false, functionSelector := none, parameters := [] }

def exOutC3 : CompilerOutput :=
  { sources := [("A.sol",
      { id := 0, ast := { nodes :=
          [SourceAstNode.contractDefinition
            { id := 1, name := "A", contractKind := some "contract",
              src := { start := 0, length := 5, fileIndex := 0 },
              linearizedBaseContracts := [1], nodes := [] },
           SourceAstNode.contractDefinition
            { id := 2, name := "B", contractKind := some "contract",
              src := { start := 6, length := 5, fileIndex := 0 },
              linearizedBaseContracts := [2, 1, 99], nodes := [] }] } })],
    contracts := [] }

def exInC3 : CompilerInput := { sources := [("A.sol", { content := "c" })] }

def exModelC3 : SourcesModel :=
  { fileIdToSourceFile := [(0, { sourceName := "A.sol", content := "c", functions := [] })],
    contractIdToContract :=
      [(1, { name := "A", contractType := ContractType.CONTRACT,
             location := { fileId := 0, sourceName := "A.sol", offset := 0, length := 5 },
             localFunctions := [], linearizedBaseContracts := [1],
             customErrors := [], inheritedFunctions := [] }),
       (2, { name := "B", contractType := ContractType.CONTRACT,
             location := { fileId := 0, sourceName := "A.sol", offset := 6, length := 5 },
             localFunctions := [], linearizedBaseContracts := [2, 1],
             customErrors := [], inheritedFunctions := [] })] }

def exAbiGood : ContractAbiItem :=
  { type := "error", name := some "GoodErr", inputs := some [{ type := "uint256" }] }

def exAbiBad : ContractAbiItem :=
  { type := "error", name := some "BadErr", inputs := some [{ type := "tuple" }] }

def exEmptyBytecode : CompilerOutputBytecode :=
  { object := "", sourceMap := "", linkReferences := [], immutableReferences := none }

def exStopBytecode : CompilerOutputBytecode :=
  { object := "00", sourceMap := "", linkReferences := [], immutableReferences := none }

def exOcAbs : CompilerOutputContract :=
  { abi := [exAbiGood, exAbiBad],
    evm := { bytecode := exEmptyBytecode, deployedBytecode := exEmptyBytecode } }

def exOcC : CompilerOutputContract :=
  { abi := [],
    evm := { bytecode := exStopBytecode, deployedBytecode := exStopBytecode } }

def exOutD : CompilerOutput :=
  { sources := [], contracts := [("D.sol", [("Abs", exOcAbs), ("C", exOcC)])] }

def exContractAbs : Contract :=
  { name := "Abs", contractType := ContractType.CONTRACT,
    location := { fileId := 0, sourceName := "D.sol", offset := 0, length := 5 },
    localFunctions := [], linearizedBaseContracts := [],
    customErrors := [], inheritedFunctions := [] }

def exContractC : Contract :=
  { name := "C", contractType := ContractType.CONTRACT,
    location := { fileId := 0, sourceName := "D.sol", offset := 6, length := 5 },
    localFunctions := [], linearizedBaseContracts := [],
    customErrors := [], inheritedFunctions := [] }

def exCmapD : ContractMap := [(1, exContractAbs), (2, exContractC)]

def exFilesD : FileMap := [(0, { sourceName := "D.sol", content := "x", functions := [] })]

def exCe1 : CustomError :=
  { name := "GoodErr", paramTypes := ["uint256"],
    selector := methodID "GoodErr" ["uint256"] }

def exStopInstruction : Instruction :=
  { pc := 0, opcode := 0, pushData := none, location := none,
    jumpType := JumpType.NOT_JUMP }

def exBytecodeC (isDeployment : Bool) : Bytecode :=
  { contract := exContractC, isDeployment := isDeployment, normalizedCode := [0],
    instructions := [exStopInstruction], libraryAddressPositions := [],
    immutableReferences := [], compilerVersion := "0.8.0" }

def exDecodeOutD : DecodeOutput :=
  { bytecodes := [exBytecodeC true, exBytecodeC false],
    contracts := [(1, { exContractAbs with customErrors := [exCe1] }), (2, exContractC)],
    diagnostics := ["could not build CustomError for error BadErr"] }

/-! ## Claim C9 (corrected) -/

def exFnNodeC9 : FunctionDefinitionNode :=
  { name := "f", kind := some "function",
    src := { start := 10, length := 5, fileIndex := 0 },
    visibility := "public", stateMutability := "nonpayable",
    implemented := some true, functionSelector := some "12345678", parameters := [] }

def exOutC9 : CompilerOutput :=
  { sources := [("A.sol",
      { id := 0, ast := { nodes :=
          [SourceAstNode.contractDefinition
            { id := 1, name := "A", contractKind := some "contract",
              src := { start := 0, length := 20, fileIndex := 0 },
              linearizedBaseContracts := [1],
              nodes := [ContractSubNode.functionDefinition exFnNodeC9] }] } })],
    contracts := [] }

def exInC9 : CompilerInput := { sources := [("A.sol", { content := "c" })] }

def exContractNodeC9 : ContractDefinitionNode :=
  { id := 1, name := "A", contractKind := some "contract",
    src := { start := 0, length := 20, fileIndex := 0 },
    linearizedBaseContracts := [1],
    nodes := [ContractSubNode.functionDefinition exFnNodeC9] }

def exFileC9 : SourceFile := { sourceName := "A.sol", content := "c", functions := [] }

def exFunC9 : ContractFunction :=
  { name := "f", functionType := ContractFunctionType.FUNCTION,
    location := { fileId := 0, sourceName := "A.sol", offset := 10, length := 5 },
    contractName := some "A", visibility := ContractFunctionVisibility.PUBLIC,
    isPayable := false, selector := some [18, 52, 86, 120], paramTypes := none }

def exContractC9 : Contract :=
  { name := "A", contractType := ContractType.CONTRACT,
    location := { fileId := 0, sourceName := "A.sol", offset := 0, length := 20 },
    localFunctions := [exFunC9], linearizedBaseContracts := [],
    customErrors := [], inheritedFunctions := [] }

def exFileC9Final : SourceFile :=
  { sourceName := "A.sol", content := "c", functions := [exFunC9] }

/-! ## Order (in)dependence of the build: definitions -/

/-- Whether a contract-body node's location triple references the given
file id. -/
def subNodeRefsFile (fid : Nat) : ContractSubNode → Bool
  | ContractSubNode.functionDefinition f => f.src.fileIndex == fid
  | ContractSubNode.modifierDefinition m => m.src.fileIndex == fid
  | ContractSubNode.variableDeclaration v => v.src.fileIndex == fid
  | ContractSubNode.otherNode => true

/-- Whether a top-level node (and everything in it) references the given
file id. -/
def nodeRefsFile (fid : Nat) : SourceAstNode → Bool
  | SourceAstNode.contractDefinition c =>
    c.src.fileIndex == fid && c.nodes.all (subNodeRefsFile fid)
  | SourceAstNode.functionDefinition f => f.src.fileIndex == fid
  | SourceAstNode.otherNode => true

/-- Every node of every source references its own file (the normal shape
of compiler output: a file's AST locations point into that file). -/
def sourcesWellFormed (output : CompilerOutput) : Bool :=
  output.sources.all (fun e => e.2.ast.nodes.all (nodeRefsFile e.2.id))

def nodeContractIds : SourceAstNode → List Nat
  | SourceAstNode.contractDefinition c => [c.id]
  | _ => []

def sourceContractIds (entry : String × CompilerOutputSource) : List Nat :=
  entry.2.ast.nodes.flatMap nodeContractIds

def allContractIds (output : CompilerOutput) : List Nat :=
  output.sources.flatMap sourceContractIds

/-- The contribution of one source entry computed locally, against a file
map holding only that source's own freshly created file: the walked file
and the lists of contract-map and bases-map entries the source appends. -/
def sourceDelta (input : CompilerInput)
    (abiMap : List (String × List (String × List ContractAbiItem)))
    (entry : String × CompilerOutputSource) :
    Except String (SourceFile × ContractMap × BasesMap) :=
  match List.lookup entry.1 input.sources with
  | none => Except.error "missing source content in compiler input"
  | some inputSource =>
    processSourceNodesGo
      [(entry.2.id, { sourceName := entry.1, content := inputSource.content, functions := [] })]
      (List.lookup entry.1 abiMap) entry.2.ast.nodes
      ({ sourceName := entry.1, content := inputSource.content, functions := [] }, [], [])

def deltaFileOf (input : CompilerInput)
    (abiMap : List (String × List (String × List ContractAbiItem)))
    (entry : String × CompilerOutputSource) : SourceFile :=
  match sourceDelta input abiMap entry with
  | Except.ok (f, _, _) => f
  | Except.error _ => { sourceName := "", content := "", functions := [] }

def deltaContractsOf (input : CompilerInput)
    (abiMap : List (String × List (String × List ContractAbiItem)))
    (entry : String × CompilerOutputSource) : ContractMap :=
  match sourceDelta input abiMap entry with
  | Except.ok (_, dc, _) => dc
  | Except.error _ => []

def deltaBasesOf (input : CompilerInput)
    (abiMap : List (String × List (String × List ContractAbiItem)))
    (entry : String × CompilerOutputSource) : BasesMap :=
  match sourceDelta input abiMap entry with
  | Except.ok (_, _, db) => db
  | Except.error _ => []

/-! ## Order (in)dependence: the second pass as a pointwise map -/

/-- The resolution applied to one contract entry by the second pass. -/
def inheritanceResolved (cmap : ContractMap) (bmap : BasesMap)
    (entry : Nat × Contract) : Nat × Contract :=
  (entry.1, { entry.2 with linearizedBaseContracts :=
      (((List.lookup entry.1 bmap).getD []).filter
        (fun baseId => (List.lookup baseId cmap).isSome)) })

def exSrcF1 : CompilerOutputSource :=
  { id := 0, ast := { nodes := [SourceAstNode.contractDefinition
      { id := 1, name := "A", contractKind := some "contract",
        src := { start := 0, length := 5, fileIndex := 0 },
        linearizedBaseContracts := [1], nodes := [] }] } }

def exSrcF2 : CompilerOutputSource :=
  { id := 1, ast := { nodes := [SourceAstNode.contractDefinition
      { id := 2, name := "B", contractKind := some "contract",
        src := { start := 0, length := 5, fileIndex := 1 },
        linearizedBaseContracts := [2], nodes := [] }] } }

def exOc8 : CompilerOutputContract :=
  { abi := [], evm := { bytecode := exStopBytecode, deployedBytecode := exStopBytecode } }

def exContractsC8 : List (String × List (String × CompilerOutputContract)) :=
  [("F1.sol", [("A", exOc8)]), ("F2.sol", [("B", exOc8)])]

def exOutC8A : CompilerOutput :=
  { sources := [("F1.sol", exSrcF1), ("F2.sol", exSrcF2)], contracts := exContractsC8 }

def exOutC8B : CompilerOutput :=
  { sources := [("F2.sol", exSrcF2), ("F1.sol", exSrcF1)], contracts := exContractsC8 }

def exInC8 : CompilerInput :=
  { sources := [("F1.sol", { content := "a" }), ("F2.sol", { content := "b" })] }

def exContractA8 : Contract :=
  { name := "A", contractType := ContractType.CONTRACT,
    location := { fileId := 0, sourceName := "F1.sol", offset := 0, length := 5 },
    localFunctions := [], linearizedBaseContracts := [1],
    customErrors := [], inheritedFunctions := [] }

def exContractB8 : Contract :=
  { name := "B", contractType := ContractType.CONTRACT,
    location := { fileId := 1, sourceName := "F2.sol", offset := 0, length := 5 },
    localFunctions := [], linearizedBaseContracts := [2],
    customErrors := [], inheritedFunctions := [] }

def exBc8 (c : Contract) (d : Bool) : Bytecode :=
  { contract := c, isDeployment := d, normalizedCode := [0],
    instructions := [exStopInstruction], libraryAddressPositions := [],
    immutableReferences := [], compilerVersion := "0.8.0" }

def exBsA : List Bytecode :=
  [exBc8 exContractA8 true, exBc8 exContractA8 false,
   exBc8 exContractB8 true, exBc8 exContractB8 false]

def exBsB : List Bytecode :=
  [exBc8 exContractB8 true, exBc8 exContractB8 false,
   exBc8 exContractA8 true, exBc8 exContractA8 false]

/-! ## Basic lemmas about the function-definition processing -/

theorem selectorParamTypesLoop_eq_map (params : List AstFunctionParameter)
    (acc : List String) :
    selectorParamTypesLoop params acc = acc ++ params.map specCanonicalParamType := by
  induction params generalizing acc with
  | nil => simp [selectorParamTypesLoop]
  | cons p ps ih =>
    simp only [selectorParamTypesLoop, List.map_cons, specCanonicalParamType]
    by_cases h1 : p.isContract = true
    · simp [h1, ih]
    · by_cases h2 : p.isEnum = true
      · simp [h1, h2, ih]
      · by_cases h3 : (p.typeName.nodeType == "ArrayTypeName"
            || p.typeName.nodeType == "FunctionTypeName"
            || p.typeName.nodeType == "Mapping") = true
        · simp [h1, h2, h3, ih]
        · simp [h1, h2, h3, ih]

/-- Destructuring a successful, producing run of
`processFunctionDefinitionAstNode`: the node was implemented, its location
resolved, and the produced function is `producedContractFunction`. -/
theorem processFunctionDefinitionAstNode_ok_some
    (node : FunctionDefinitionNode) (files : FileMap) (contract : Option Contract)
    (functionAbis : Option (List ContractAbiItem)) (f : ContractFunction)
    (h : processFunctionDefinitionAstNode node files contract functionAbis
        = Except.ok (some f)) :
    node.implemented ≠ some false ∧
    ∃ loc, astSrcToSourceLocation node.src files = some loc ∧
      f = producedContractFunction node loc contract functionAbis := by
  unfold processFunctionDefinitionAstNode at h
  split at h
  · simp at h
  next himpl =>
    split at h
    · simp at h
    next loc hloc =>
      refine ⟨by simpa using himpl, loc, hloc, ?_⟩
      simp only [Except.ok.injEq, Option.some.injEq] at h
      subst h
      rfl

/-- Destructuring a successful `Except` bind. -/
theorem except_bind_ok {α β : Type} {x : Except String α} {f : α → Except String β} {b : β}
    (h : x >>= f = Except.ok b) : ∃ a, x = Except.ok a ∧ f a = Except.ok b := by
  cases x with
  | error e => exact absurd h (by simp [Bind.bind, Except.bind])
  | ok a => exact ⟨a, rfl, by simpa [Bind.bind, Except.bind] using h⟩

theorem exceptMapM_ok_forall₂ {α β : Type} (f : α → Except String β) :
    ∀ (l : List α) (l' : List β), exceptMapM f l = Except.ok l' →
      List.Forall₂ (fun a b => f a = Except.ok b) l l'
  | [], l', h => by
    simp only [exceptMapM, Except.ok.injEq] at h
    subst h
    exact List.Forall₂.nil
  | a :: rest, l', h => by
    simp only [exceptMapM] at h
    obtain ⟨b, hb, h2⟩ := except_bind_ok h
    obtain ⟨bs, hbs, h3⟩ := except_bind_ok h2
    simp only [Except.ok.injEq] at h3
    subst h3
    exact List.Forall₂.cons hb (exceptMapM_ok_forall₂ f rest bs hbs)

theorem forall₂_mem_right {α β : Type} {R : α → β → Prop} :
    ∀ {l : List α} {l' : List β}, List.Forall₂ R l l' → ∀ b ∈ l', ∃ a ∈ l, R a b := by
  intro l l' h
  induction h with
  | nil => intro b hb; cases hb
  | cons hr _ ih =>
    intro b' hb'
    rcases List.mem_cons.mp hb' with rfl | hb2
    · exact ⟨_, List.mem_cons_self _ _, hr⟩
    · obtain ⟨a, ha, har⟩ := ih _ hb2
      exact ⟨a, List.mem_cons_of_mem _ ha, har⟩

theorem lookup_mapSet_self {α β : Type} [BEq α] [LawfulBEq α] (k : α) (v : β)
    (l : List (α × β)) : List.lookup k (mapSet k v l) = some v := by
  induction l with
  | nil => simp [mapSet, List.lookup]
  | cons p rest ih =>
    obtain ⟨k', v'⟩ := p
    simp only [mapSet]
    by_cases h : (k' == k) = true
    · simp [List.lookup, h]
    · have hkk' : ¬(k' = k) := by simpa [beq_iff_eq] using h
      have hne : (k == k') = false :=
        beq_eq_false_iff_ne.mpr (fun he => hkk' (Eq.symm he))
      simp [List.lookup, hne, ih, h]

/-- One contract-body sub-node either leaves the state unchanged or adds
one function, owned by the contract, to both the contract's local
functions and the file's functions. -/
theorem processContractSubNode_spec (files : FileMap)
    (contractAbi : Option (List ContractAbiItem)) (subNode : ContractSubNode)
    (c : Contract) (fl : SourceFile) (c2 : Contract) (fl2 : SourceFile)
    (h : processContractSubNode files contractAbi subNode c fl = Except.ok (c2, fl2)) :
    (c2 = c ∧ fl2 = fl) ∨
    ∃ f, f.contractName = some c.name ∧
      c2 = { c with localFunctions := c.localFunctions ++ [f] } ∧
      fl2 = { fl with functions := fl.functions ++ [f] } := by
  cases subNode with
  | functionDefinition node =>
    simp only [processContractSubNode] at h
    cases hp : processFunctionDefinitionAstNode node files (some c)
        (contractAbi.map (List.filter (fun abiEntry => abiEntry.name == some node.name))) with
    | error e => rw [hp] at h; simp at h
    | ok res =>
      rw [hp] at h
      cases res with
      | none =>
        simp only [Except.ok.injEq, Prod.mk.injEq] at h
        exact Or.inl ⟨h.1.symm, h.2.symm⟩
      | some f =>
        simp only [Except.ok.injEq, Prod.mk.injEq] at h
        obtain ⟨-, loc, -, hf⟩ := processFunctionDefinitionAstNode_ok_some node files (some c)
          (contractAbi.map (List.filter (fun abiEntry => abiEntry.name == some node.name)))
          f hp
        refine Or.inr ⟨f, ?_, h.1.symm, h.2.symm⟩
        rw [hf]
        rfl
  | modifierDefinition node =>
    simp only [processContractSubNode] at h
    cases hl : astSrcToSourceLocation node.src files with
    | none => rw [hl] at h; simp at h
    | some loc =>
      rw [hl] at h
      simp only [Except.ok.injEq, Prod.mk.injEq] at h
      exact Or.inr ⟨modifierToContractFunction node loc c, rfl, h.1.symm, h.2.symm⟩
  | variableDeclaration node =>
    simp only [processContractSubNode] at h
    split at h
    · simp at h
    next loc hl =>
      split at h
      next hg =>
        simp only [Except.ok.injEq, Prod.mk.injEq] at h
        exact Or.inl ⟨h.1.symm, h.2.symm⟩
      next f hg =>
        simp only [Except.ok.injEq, Prod.mk.injEq] at h
        refine Or.inr ⟨f, ?_, h.1.symm, h.2.symm⟩
        unfold variableDeclarationToGetter at hg
        split at hg
        · split at hg
          · simp at hg
          · simp only [Option.some.injEq] at hg
            subst hg
            rfl
        · simp at hg
  | otherNode =>
    simp only [processContractSubNode, Except.ok.injEq, Prod.mk.injEq] at h
    exact Or.inl ⟨h.1.symm, h.2.symm⟩

/-- The contract-body walk: the functions added to the contract are
exactly the functions added to the file, in the same order, each owned by
the contract. -/
theorem processContractNodesGo_functions (files : FileMap)
    (contractAbi : Option (List ContractAbiItem)) :
    ∀ (nodes : List ContractSubNode) (c : Contract) (fl : SourceFile)
      (c2 : Contract) (fl2 : SourceFile),
      processContractNodesGo files contractAbi nodes (c, fl) = Except.ok (c2, fl2) →
      c2.name = c.name ∧
      ∃ added, c2.localFunctions = c.localFunctions ++ added ∧
        fl2.functions = fl.functions ++ added ∧
        ∀ f ∈ added, f.contractName = some c.name
  | [], c, fl, c2, fl2, h => by
    simp only [processContractNodesGo, Except.ok.injEq, Prod.mk.injEq] at h
    obtain ⟨h1, h2⟩ := h
    subst h1 h2
    exact ⟨rfl, [], by simp, by simp, by simp⟩
  | subNode :: rest, c, fl, c2, fl2, h => by
    simp only [processContractNodesGo] at h
    obtain ⟨⟨c', fl'⟩, hstep, hrest⟩ := except_bind_ok h
    rcases processContractSubNode_spec files contractAbi subNode c fl c' fl' hstep with
      ⟨hc', hfl'⟩ | ⟨f, hown, hc', hfl'⟩
    · rw [hc', hfl'] at hrest
      exact processContractNodesGo_functions files contractAbi rest c fl c2 fl2 hrest
    · subst hc' hfl'
      obtain ⟨hname, added, hcl, hfll, hmem⟩ :=
        processContractNodesGo_functions files contractAbi rest _ _ c2 fl2 hrest
      refine ⟨by simpa using hname, f :: added, ?_, ?_, ?_⟩
      · simpa [List.append_assoc] using hcl
      · simpa [List.append_assoc] using hfll
      · intro g hg
        rcases List.mem_cons.mp hg with rfl | hg2
        · exact hown
        · simpa using hmem g hg2

/-- Destructuring a successful model build into its two passes. -/
theorem createSourcesModelFromAst_ok (output : CompilerOutput) (input : CompilerInput)
    (model : SourcesModel)
    (h : createSourcesModelFromAst output input = Except.ok model) :
    ∃ files cmap bmap,
      registerAllSources output input = Except.ok (files, cmap, bmap) ∧
      applyContractsInheritance cmap bmap = Except.ok model.contractIdToContract ∧
      model.fileIdToSourceFile = files := by
  unfold createSourcesModelFromAst at h
  obtain ⟨⟨files, cmap, bmap⟩, h1, h2⟩ := except_bind_ok h
  obtain ⟨cmap', h3, h4⟩ := except_bind_ok h2
  simp only [Except.ok.injEq] at h4
  subst h4
  exact ⟨files, cmap, bmap, h1, h3, rfl⟩

/-- The custom-error loop characterized: successful constructions extend
the contract's custom errors in ABI order, failing error entries each add
one diagnostic. -/
theorem buildCustomErrors_foldl_spec (abi : List ContractAbiItem) :
    ∀ (contract : Contract) (diags : List String),
      abi.foldl (fun acc abiItem =>
        if abiItem.type == "error" then
          match CustomError.fromABI abiItem.name abiItem.inputs with
          | some customError =>
            ({ acc.1 with customErrors := acc.1.customErrors ++ [customError] }, acc.2)
          | none => (acc.1, acc.2 ++ [customErrorDiagnostic abiItem])
        else acc) (contract, diags) =
      ({ contract with
          customErrors := contract.customErrors ++
            (abi.filter (fun i => i.type == "error")).filterMap
              (fun i => CustomError.fromABI i.name i.inputs) },
        diags ++ (abi.filter (fun i =>
          i.type == "error" && (CustomError.fromABI i.name i.inputs).isNone)).map
            customErrorDiagnostic) := by
  induction abi with
  | nil => intro contract diags; simp
  | cons i rest ih =>
    intro contract diags
    simp only [List.foldl_cons]
    by_cases hty : (i.type == "error") = true
    · cases hce : CustomError.fromABI i.name i.inputs with
      | some ce =>
        simp only [hty, if_true, hce]
        rw [ih]
        simp [hty, hce, List.filter_cons, List.filterMap_cons]
      | none =>
        simp only [hty, if_true, hce]
        rw [ih]
        simp [hty, hce, List.filter_cons, List.filterMap_cons]
    · simp only [hty]
      rw [ih]
      simp [List.filter_cons, hty]

theorem buildCustomErrors_spec (contract : Contract) (abi : List ContractAbiItem) :
    buildCustomErrors contract abi =
      (contractErrorsResolved contract abi,
       (abi.filter (fun i =>
          i.type == "error" && (CustomError.fromABI i.name i.inputs).isNone)).map
         customErrorDiagnostic) := by
  unfold buildCustomErrors contractErrorsResolved
  rw [buildCustomErrors_foldl_spec]
  simp

/-- Destructuring one successful per-contract decode step. -/
theorem decodeContractBytecodes_ok (solcVersion : String) (output : CompilerOutput)
    (files : FileMap) (entry : Nat × Contract)
    (r : List Bytecode × (Nat × Contract) × List String)
    (h : decodeContractBytecodes solcVersion output files entry = Except.ok r) :
    ∃ oc, evmOutputFor output entry.2 = some oc ∧
      r = (contractBytecodeContribution solcVersion output files entry,
           contractAfterDecode output entry,
           contractDiagnostics output entry) := by
  unfold decodeContractBytecodes at h
  split at h
  · simp at h
  next oc hoc =>
    have hoc2 : evmOutputFor output entry.2 = some oc := hoc
    refine ⟨oc, hoc2, ?_⟩
    split at h
    next contract' diags hbce =>
      rw [buildCustomErrors_spec] at hbce
      simp only [Prod.mk.injEq] at hbce
      obtain ⟨hc', hd'⟩ := hbce
      subst hc' hd'
      split at h
      next hobj =>
        simp only [Except.ok.injEq] at h
        subst h
        simp [contractBytecodeContribution, contractAfterDecode, contractDiagnostics,
          hoc2, hobj]
      next hobj =>
        simp only [Except.ok.injEq] at h
        subst h
        simp [contractBytecodeContribution, contractAfterDecode, contractDiagnostics,
          hoc2, hobj]

/-- The decode pass characterized over the whole contract map. -/
theorem decodeBytecodesGo_ok_spec (solcVersion : String) (output : CompilerOutput)
    (files : FileMap) :
    ∀ (cmap : ContractMap) (out : DecodeOutput),
      decodeBytecodesGo solcVersion output files cmap = Except.ok out →
      out.bytecodes = cmap.flatMap (contractBytecodeContribution solcVersion output files) ∧
      out.contracts = cmap.map (contractAfterDecode output) ∧
      out.diagnostics = cmap.flatMap (contractDiagnostics output)
  | [], out, h => by
    simp only [decodeBytecodesGo, Except.ok.injEq] at h
    subst h
    simp
  | entry :: rest, out, h => by
    simp only [decodeBytecodesGo] at h
    obtain ⟨⟨bcs, entry', diags⟩, hstep, h2⟩ := except_bind_ok h
    obtain ⟨out', hrest, h3⟩ := except_bind_ok h2
    simp only [Except.ok.injEq] at h3
    subst h3
    obtain ⟨oc, hoc, hr⟩ := decodeContractBytecodes_ok solcVersion output files entry
      (bcs, entry', diags) hstep
    simp only [Prod.mk.injEq] at hr
    obtain ⟨hb, he, hd⟩ := hr
    obtain ⟨h1', h2', h3'⟩ := decodeBytecodesGo_ok_spec solcVersion output files rest out' hrest
    subst hb he hd
    exact ⟨by simp [List.flatMap_cons, h1'], by simp [h2'], by simp [List.flatMap_cons, h3']⟩

/-- The assigned selector is present exactly when the function type is
ordinary FUNCTION and the visibility external or public. -/
theorem processedSelector_isSome (node : FunctionDefinitionNode) :
    (processedSelector node).isSome
      = (functionDefinitionKindToFunctionType node.kind == ContractFunctionType.FUNCTION
        && (astVisibilityToVisibility node.visibility == ContractFunctionVisibility.EXTERNAL
            || astVisibilityToVisibility node.visibility
                == ContractFunctionVisibility.PUBLIC)) := by
  unfold processedSelector
  split <;> simp_all

/-! ## Claim C1 -/

/-- C1: for every function-definition AST node processed into a
`ContractFunction`, a selector is assigned if and only if the node's
function type is ordinary FUNCTION (not constructor, fallback, receive or
free function) and its visibility is PUBLIC or EXTERNAL. -/
theorem claim1_selector_iff_public_or_external_ordinary_function
    (node : FunctionDefinitionNode) (files : FileMap) (contract : Option Contract)
    (functionAbis : Option (List ContractAbiItem)) (f : ContractFunction)
    (h : processFunctionDefinitionAstNode node files contract functionAbis
        = Except.ok (some f)) :
    f.selector.isSome = true ↔
      (functionDefinitionKindToFunctionType node.kind = ContractFunctionType.FUNCTION ∧
        (astVisibilityToVisibility node.visibility = ContractFunctionVisibility.PUBLIC ∨
         astVisibilityToVisibility node.visibility = ContractFunctionVisibility.EXTERNAL)) := by
  obtain ⟨-, loc, -, hf⟩ :=
    processFunctionDefinitionAstNode_ok_some node files contract functionAbis f h
  subst hf
  show (processedSelector node).isSome = true ↔ _
  rw [processedSelector_isSome]
  simp only [Bool.and_eq_true, Bool.or_eq_true, beq_iff_eq]
  tauto

theorem claim1_witness :
    processFunctionDefinitionAstNode exNodeC1 exFiles none none = Except.ok (some exFunC1) ∧
    (exFunC1.selector.isSome = true ↔
      (functionDefinitionKindToFunctionType exNodeC1.kind = ContractFunctionType.FUNCTION ∧
        (astVisibilityToVisibility exNodeC1.visibility = ContractFunctionVisibility.PUBLIC ∨
         astVisibilityToVisibility exNodeC1.visibility
            = ContractFunctionVisibility.EXTERNAL))) :=
  ⟨by decide,
   claim1_selector_iff_public_or_external_ordinary_function exNodeC1 exFiles none none exFunC1
     (by decide)⟩

/-! ## Claim C2 -/

/-- C2: for every function-definition node that receives a selector, an
explicit `functionSelector` is used hex-decoded and unchanged; otherwise
the selector is the signature hash over the canonicalized parameter types
(contract typed to address, enum typed to uint8, array/function-type/
mapping type names to their full declared type string, the rest to the
canonical ABI form of the type name). -/
theorem claim2_selector_explicit_or_canonical_signature_hash
    (node : FunctionDefinitionNode) (files : FileMap) (contract : Option Contract)
    (functionAbis : Option (List ContractAbiItem)) (f : ContractFunction) (sel : Bytes)
    (h : processFunctionDefinitionAstNode node files contract functionAbis
        = Except.ok (some f))
    (hsel : f.selector = some sel) :
    (∀ hex, node.functionSelector = some hex → sel = hexDecode hex) ∧
    (node.functionSelector = none →
      sel = methodID node.name (node.parameters.map specCanonicalParamType)) := by
  obtain ⟨-, loc, -, hf⟩ :=
    processFunctionDefinitionAstNode_ok_some node files contract functionAbis f h
  subst hf
  simp only [producedContractFunction, processedSelector] at hsel
  split at hsel
  · simp only [Option.some.injEq] at hsel
    subst hsel
    unfold astFunctionDefinitionToSelector
    constructor
    · intro hex hhex
      rw [hhex]
    · intro hnone
      rw [hnone, selectorParamTypesLoop_eq_map, List.nil_append]
  · simp at hsel

theorem claim2_witness :
    processFunctionDefinitionAstNode exNodeC2 exFiles none none = Except.ok (some exFunC2) ∧
    exFunC2.selector = some exSelC2 ∧ exNodeC2.functionSelector = none ∧
    exSelC2 = methodID exNodeC2.name (exNodeC2.parameters.map specCanonicalParamType) :=
  ⟨by decide, by decide, by decide,
   (claim2_selector_explicit_or_canonical_signature_hash exNodeC2 exFiles none none exFunC2
      exSelC2 (by decide) (by decide)).2 (by decide)⟩

/-! ## Claim C6 -/

/-- C6: a function-definition node processed against the ABI entries
sharing its name (the overload set) adopts, as its resolved parameter
type list, the declared input types of the entry whose selector —
recomputed by hashing the entry's name with its declared input types —
equals the function's computed selector; when no entry matches, the
function has no resolved parameter type list. -/
theorem claim6_overload_resolved_by_recomputed_selector
    (node : FunctionDefinitionNode) (files : FileMap) (contract : Option Contract)
    (contractAbi : List ContractAbiItem) (f : ContractFunction)
    (h : processFunctionDefinitionAstNode node files contract
        (some (contractAbi.filter (fun abiEntry => abiEntry.name == some node.name)))
        = Except.ok (some f)) :
    f.paramTypes =
      (((contractAbi.filter (fun abiEntry => abiEntry.name == some node.name)).find?
          (abiEntryMatchesSelector f.selector)).bind ContractAbiItem.inputs).map
        (List.map AbiInput.type) ∧
    ((contractAbi.filter (fun abiEntry => abiEntry.name == some node.name)).find?
        (abiEntryMatchesSelector f.selector) = none → f.paramTypes = none) := by
  obtain ⟨-, loc, -, hf⟩ := processFunctionDefinitionAstNode_ok_some node files contract
    (some (contractAbi.filter (fun abiEntry => abiEntry.name == some node.name))) f h
  subst hf
  constructor
  · rfl
  · intro hnone
    simp only [producedContractFunction] at hnone
    simp only [producedContractFunction, Option.getD_some]
    rw [hnone]
    rfl

theorem claim6_witness :
    processFunctionDefinitionAstNode exNodeC6 exFiles none
        (some (exAbiC6.filter (fun abiEntry => abiEntry.name == some exNodeC6.name)))
        = Except.ok (some exFunC6) ∧
    exFunC6.paramTypes =
      (((exAbiC6.filter (fun abiEntry => abiEntry.name == some exNodeC6.name)).find?
          (abiEntryMatchesSelector exFunC6.selector)).bind ContractAbiItem.inputs).map
        (List.map AbiInput.type) :=
  ⟨by decide,
   (claim6_overload_resolved_by_recomputed_selector exNodeC6 exFiles none exAbiC6 exFunC6
      (by decide)).1⟩

/-! ## Claim C7 -/

/-- C7: a function-definition AST node whose implemented flag is false is
skipped before any location, visibility or selector processing: no
`ContractFunction` entity is produced, whatever the rest of the node or
the file model holds (in particular even when its location would not
resolve). -/
theorem claim7_unimplemented_declaration_produces_no_entity
    (node : FunctionDefinitionNode) (files : FileMap) (contract : Option Contract)
    (functionAbis : Option (List ContractAbiItem))
    (h : node.implemented = some false) :
    processFunctionDefinitionAstNode node files contract functionAbis = Except.ok none := by
  unfold processFunctionDefinitionAstNode
  simp [h]

theorem claim7_witness :
    exNodeC7.implemented = some false ∧
    processFunctionDefinitionAstNode exNodeC7 [] none none = Except.ok none :=
  ⟨by decide, claim7_unimplemented_declaration_produces_no_entity exNodeC7 [] none none
    (by decide)⟩

/-! ## Claim C3 -/

/-- C3: the linearized ancestor list of every contract is resolved in a
second pass, against the contract map holding every contract of every
file; each compiler-provided ancestor id that does not resolve is silently
skipped, the resolving ones are kept in exactly the compiler-provided
relative order (a sublist of the compiler-provided id list), and the
resulting list is duplicate-free (acyclic) whenever the compiler-provided
linearization is. -/
theorem claim3_inheritance_second_pass_order_preserving_acyclic
    (output : CompilerOutput) (input : CompilerInput) (model : SourcesModel)
    (h : createSourcesModelFromAst output input = Except.ok model) :
    ∃ files cmap bmap,
      registerAllSources output input = Except.ok (files, cmap, bmap) ∧
      applyContractsInheritance cmap bmap = Except.ok model.contractIdToContract ∧
      ∀ p ∈ model.contractIdToContract,
        ∃ c ids, (p.1, c) ∈ cmap ∧ List.lookup p.1 bmap = some ids ∧
          p.2 = { c with linearizedBaseContracts :=
                    (ids.filter (fun baseId => (List.lookup baseId cmap).isSome)) } ∧
          p.2.linearizedBaseContracts.Sublist ids ∧
          (ids.Nodup → p.2.linearizedBaseContracts.Nodup) := by
  obtain ⟨files, cmap, bmap, h1, h2, -⟩ := createSourcesModelFromAst_ok output input model h
  refine ⟨files, cmap, bmap, h1, h2, ?_⟩
  intro p hp
  have hfa := exceptMapM_ok_forall₂ _ cmap model.contractIdToContract h2
  obtain ⟨a, ha, hr⟩ := forall₂_mem_right hfa p hp
  cases hids : List.lookup a.1 bmap with
  | none => rw [hids] at hr; simp at hr
  | some ids =>
    rw [hids] at hr
    simp only [Except.ok.injEq] at hr
    refine ⟨a.2, ids, ?_, ?_, ?_, ?_, ?_⟩
    · rw [← hr]; exact ha
    · rw [← hr]; exact hids
    · rw [← hr]
    · rw [← hr]
      exact List.filter_sublist ids
    · intro hnd
      rw [← hr]
      exact hnd.sublist (List.filter_sublist ids)

/-! ## Claim C4 -/

/-- C4: the decode pass produces, for each contract in registration order,
no bytecode entities when the contract's compiled bytecode object is the
empty string (and this is not an error: the overall run still succeeds),
and otherwise exactly two entities: the deployment one decoded from
`bytecode` followed by the runtime one decoded from `deployedBytecode`. -/
theorem claim4_empty_bytecode_none_else_deployment_then_runtime
    (solcVersion : String) (output : CompilerOutput) (files : FileMap)
    (cmap : ContractMap) (out : DecodeOutput)
    (h : decodeBytecodes solcVersion output files cmap = Except.ok out) :
    out.bytecodes = cmap.flatMap (contractBytecodeContribution solcVersion output files) ∧
    ∀ e ∈ cmap, ∀ oc, evmOutputFor output e.2 = some oc →
      (oc.evm.bytecode.object = "" →
        contractBytecodeContribution solcVersion output files e = []) ∧
      (oc.evm.bytecode.object ≠ "" →
        contractBytecodeContribution solcVersion output files e =
          [decodeEvmBytecode (contractErrorsResolved e.2 oc.abi) solcVersion true
             oc.evm.bytecode files,
           decodeEvmBytecode (contractErrorsResolved e.2 oc.abi) solcVersion false
             oc.evm.deployedBytecode files]) := by
  obtain ⟨h1, -, -⟩ := decodeBytecodesGo_ok_spec solcVersion output files cmap out h
  refine ⟨h1, ?_⟩
  intro e _ oc hoc
  constructor
  · intro hempty
    simp [contractBytecodeContribution, hoc, hempty]
  · intro hne
    simp [contractBytecodeContribution, hoc, hne]

/-! ## Claim C5 -/

/-- C5: an ABI error entry whose custom-error construction fails is
skipped with a diagnostic, and only that entry: the contract still
records every other successfully constructed custom error (in ABI order),
and the bytecode production of this and all other contracts is exactly
the per-contract contribution, unaffected. -/
theorem claim5_failing_custom_error_skipped_with_diagnostic_nonfatal
    (solcVersion : String) (output : CompilerOutput) (files : FileMap)
    (cmap : ContractMap) (out : DecodeOutput) (e : Nat × Contract)
    (oc : CompilerOutputContract)
    (h : decodeBytecodes solcVersion output files cmap = Except.ok out)
    (he : e ∈ cmap) (hoc : evmOutputFor output e.2 = some oc) :
    (e.1, contractErrorsResolved e.2 oc.abi) ∈ out.contracts ∧
    (∀ i ∈ oc.abi, i.type = "error" → CustomError.fromABI i.name i.inputs = none →
      customErrorDiagnostic i ∈ out.diagnostics) ∧
    out.bytecodes = cmap.flatMap (contractBytecodeContribution solcVersion output files) := by
  obtain ⟨h1, h2, h3⟩ := decodeBytecodesGo_ok_spec solcVersion output files cmap out h
  refine ⟨?_, ?_, h1⟩
  · rw [h2]
    have : contractAfterDecode output e = (e.1, contractErrorsResolved e.2 oc.abi) := by
      simp [contractAfterDecode, hoc]
    exact this ▸ List.mem_map_of_mem (contractAfterDecode output) he
  · intro i hi hity hifail
    rw [h3]
    have hmem : customErrorDiagnostic i ∈ contractDiagnostics output e := by
      simp only [contractDiagnostics, hoc]
      exact List.mem_map_of_mem customErrorDiagnostic
        (List.mem_filter.mpr ⟨hi, by simp [hity, hifail]⟩)
    exact List.mem_flatMap.mpr ⟨e, he, hmem⟩

/-! ## Claim C10 -/

/-- C10: custom errors are built from the ABI before the empty-bytecode
check: a contract whose bytecode object is the empty string still records
every well-formed ABI error entry as a custom error, while contributing
zero bytecode entities. -/
theorem claim10_abstract_contract_still_models_custom_errors
    (solcVersion : String) (output : CompilerOutput) (files : FileMap)
    (cmap : ContractMap) (out : DecodeOutput) (e : Nat × Contract)
    (oc : CompilerOutputContract)
    (h : decodeBytecodes solcVersion output files cmap = Except.ok out)
    (he : e ∈ cmap) (hoc : evmOutputFor output e.2 = some oc)
    (hempty : oc.evm.bytecode.object = "") :
    contractBytecodeContribution solcVersion output files e = [] ∧
    out.bytecodes = cmap.flatMap (contractBytecodeContribution solcVersion output files) ∧
    (e.1, contractErrorsResolved e.2 oc.abi) ∈ out.contracts := by
  obtain ⟨h1, h2, -⟩ := decodeBytecodesGo_ok_spec solcVersion output files cmap out h
  refine ⟨?_, h1, ?_⟩
  · simp [contractBytecodeContribution, hoc, hempty]
  · rw [h2]
    have : contractAfterDecode output e = (e.1, contractErrorsResolved e.2 oc.abi) := by
      simp [contractAfterDecode, hoc]
    exact this ▸ List.mem_map_of_mem (contractAfterDecode output) he

theorem claim3_witness :
    createSourcesModelFromAst exOutC3 exInC3 = Except.ok exModelC3 ∧
    (∃ files cmap bmap,
      registerAllSources exOutC3 exInC3 = Except.ok (files, cmap, bmap) ∧
      applyContractsInheritance cmap bmap = Except.ok exModelC3.contractIdToContract ∧
      ∀ p ∈ exModelC3.contractIdToContract,
        ∃ c ids, (p.1, c) ∈ cmap ∧ List.lookup p.1 bmap = some ids ∧
          p.2 = { c with linearizedBaseContracts :=
                    (ids.filter (fun baseId => (List.lookup baseId cmap).isSome)) } ∧
          p.2.linearizedBaseContracts.Sublist ids ∧
          (ids.Nodup → p.2.linearizedBaseContracts.Nodup)) :=
  ⟨by decide,
   claim3_inheritance_second_pass_order_preserving_acyclic exOutC3 exInC3 exModelC3
     (by decide)⟩

theorem claim4_witness :
    decodeBytecodes "0.8.0" exOutD exFilesD exCmapD = Except.ok exDecodeOutD ∧
    exDecodeOutD.bytecodes
      = exCmapD.flatMap (contractBytecodeContribution "0.8.0" exOutD exFilesD) :=
  ⟨by decide,
   (claim4_empty_bytecode_none_else_deployment_then_runtime "0.8.0" exOutD exFilesD exCmapD
      exDecodeOutD (by decide)).1⟩

theorem claim5_witness :
    decodeBytecodes "0.8.0" exOutD exFilesD exCmapD = Except.ok exDecodeOutD ∧
    CustomError.fromABI exAbiBad.name exAbiBad.inputs = none ∧
    (1, contractErrorsResolved exContractAbs exOcAbs.abi) ∈ exDecodeOutD.contracts ∧
    customErrorDiagnostic exAbiBad ∈ exDecodeOutD.diagnostics :=
  ⟨by decide, by decide,
   (claim5_failing_custom_error_skipped_with_diagnostic_nonfatal "0.8.0" exOutD exFilesD
      exCmapD exDecodeOutD (1, exContractAbs) exOcAbs (by decide) (by decide) (by decide)).1,
   (claim5_failing_custom_error_skipped_with_diagnostic_nonfatal "0.8.0" exOutD exFilesD
      exCmapD exDecodeOutD (1, exContractAbs) exOcAbs (by decide) (by decide) (by decide)).2.1
     exAbiBad (by decide) (by decide) (by decide)⟩

theorem claim10_witness :
    decodeBytecodes "0.8.0" exOutD exFilesD exCmapD = Except.ok exDecodeOutD ∧
    exOcAbs.evm.bytecode.object = "" ∧
    contractBytecodeContribution "0.8.0" exOutD exFilesD (1, exContractAbs) = [] ∧
    (contractErrorsResolved exContractAbs exOcAbs.abi).customErrors = [exCe1] :=
  ⟨by decide, by decide,
   (claim10_abstract_contract_still_models_custom_errors "0.8.0" exOutD exFilesD exCmapD
      exDecodeOutD (1, exContractAbs) exOcAbs (by decide) (by decide) (by decide)
      (by decide)).1,
   by decide⟩

/-- C9 counterexample: in the model built from a file holding one contract
with one nested function and no file-scope functions, the `SourceFile`'s
function list is not empty — it records exactly the contract-nested
function (whose owner is the contract "A").  The claim that functions
nested inside a contract definition are not recorded on the `SourceFile`'s
function list is therefore false on the code (line 419 adds every
processed function to the file). -/
theorem claim9_counterexample :
    (createSourcesModelFromAst exOutC9 exInC9).toOption.map
        (fun m => (List.lookup 0 m.fileIdToSourceFile).map
          (fun f => f.functions.map ContractFunction.contractName))
      = some (some [some "A"]) := by decide

/-- C9 (amended): the `SourceFile`'s function list records every function
produced while walking the file, contract-nested ones included: processing
a contract node extends the file's function list by exactly the contract's
local functions, in order, and each of those carries the contract as its
owner (file-scope free functions, by contrast, are recorded with no
owner). -/
theorem claim9_amended_nested_functions_recorded_on_file_with_owner
    (file : SourceFile) (contractNode : ContractDefinitionNode) (files : FileMap)
    (contractType : ContractType) (cmap : ContractMap) (bmap : BasesMap)
    (contractAbi : Option (List ContractAbiItem)) (file2 : SourceFile)
    (cmap2 : ContractMap) (bmap2 : BasesMap)
    (h : processContractAstNode file contractNode files contractType cmap bmap contractAbi
        = Except.ok (file2, cmap2, bmap2)) :
    ∃ c, List.lookup contractNode.id cmap2 = some c ∧
      file2.functions = file.functions ++ c.localFunctions ∧
      ∀ f ∈ c.localFunctions, f.contractName = some contractNode.name := by
  unfold processContractAstNode at h
  split at h
  · simp at h
  next loc hloc =>
    obtain ⟨⟨contractF, fileF⟩, hgo, h2⟩ := except_bind_ok h
    simp only [Except.ok.injEq, Prod.mk.injEq] at h2
    obtain ⟨hf2, hc2, hb2⟩ := h2
    obtain ⟨hname, added, hcl, hfl, hmem⟩ :=
      processContractNodesGo_functions files contractAbi contractNode.nodes _ _
        contractF fileF hgo
    refine ⟨contractF, ?_, ?_, ?_⟩
    · rw [← hc2]
      exact lookup_mapSet_self contractNode.id contractF cmap
    · rw [← hf2, hfl, hcl]
      simp
    · intro f hf
      rw [hcl] at hf
      simp only [List.nil_append] at hf
      simpa using hmem f hf

theorem claim9_witness :
    processContractAstNode exFileC9 exContractNodeC9 [(0, exFileC9)]
        ContractType.CONTRACT [] [] none
      = Except.ok (exFileC9Final, [(1, exContractC9)], [(1, [1])]) ∧
    (∃ c, List.lookup exContractNodeC9.id [(1, exContractC9)] = some c ∧
      exFileC9Final.functions = exFileC9.functions ++ c.localFunctions ∧
      ∀ f ∈ c.localFunctions, f.contractName = some exContractNodeC9.name) :=
  ⟨by decide,
   claim9_amended_nested_functions_recorded_on_file_with_owner exFileC9 exContractNodeC9
     [(0, exFileC9)] ContractType.CONTRACT [] [] none exFileC9Final [(1, exContractC9)]
     [(1, [1])] (by decide)⟩

/-! ## Order (in)dependence: association-list and permutation lemmas -/

theorem lookup_mapSet_ne {α β : Type} [BEq α] [LawfulBEq α] (k k' : α) (v : β)
    (l : List (α × β)) (h : ¬(k = k')) :
    List.lookup k (mapSet k' v l) = List.lookup k l := by
  induction l with
  | nil =>
    have : (k == k') = false := beq_eq_false_iff_ne.mpr h
    simp [mapSet, List.lookup, this]
  | cons p rest ih =>
    obtain ⟨a, b⟩ := p
    simp only [mapSet]
    by_cases ha : (a == k') = true
    · have hak : a = k' := by simpa [beq_iff_eq] using ha
      subst hak
      have hkk : (k == a) = false := beq_eq_false_iff_ne.mpr h
      simp [List.lookup, hkk]
    · by_cases hka : (k == a) = true
      · simp [List.lookup, hka, ha]
      · simp only [Bool.not_eq_true] at hka
        simp [List.lookup, hka, ih, ha]

theorem mapSet_fresh {α β : Type} [BEq α] [LawfulBEq α] (k : α) (v : β)
    (l : List (α × β)) (h : List.lookup k l = none) :
    mapSet k v l = l ++ [(k, v)] := by
  induction l with
  | nil => simp [mapSet]
  | cons p rest ih =>
    obtain ⟨a, b⟩ := p
    simp only [List.lookup] at h
    by_cases hka : (k == a) = true
    · simp [hka] at h
    · simp only [Bool.not_eq_true] at hka
      rw [hka] at h
      simp only [mapSet]
      have hak : (a == k) = false := by
        simp only [beq_eq_false_iff_ne] at hka ⊢
        exact fun he => hka (Eq.symm he)
      simp [hak, ih h]

theorem lookup_append {α β : Type} [BEq α] (k : α) (l1 l2 : List (α × β)) :
    List.lookup k (l1 ++ l2)
      = match List.lookup k l1 with
        | some v => some v
        | none => List.lookup k l2 := by
  induction l1 with
  | nil => simp [List.lookup]
  | cons p rest ih =>
    obtain ⟨a, b⟩ := p
    by_cases hka : (k == a) = true
    · simp [List.lookup, hka]
    · simp only [Bool.not_eq_true] at hka
      simp [List.lookup, hka, ih]

theorem mapSet_append {α β : Type} [BEq α] [LawfulBEq α] (k : α) (v : β)
    (l1 l2 : List (α × β)) (h : List.lookup k l1 = none) :
    mapSet k v (l1 ++ l2) = l1 ++ mapSet k v l2 := by
  induction l1 with
  | nil => simp
  | cons p rest ih =>
    obtain ⟨a, b⟩ := p
    simp only [List.lookup] at h
    by_cases hka : (k == a) = true
    · simp [hka] at h
    · simp only [Bool.not_eq_true] at hka
      rw [hka] at h
      have hak : (a == k) = false := by
        simp only [beq_eq_false_iff_ne] at hka ⊢
        exact fun he => hka (Eq.symm he)
      simp only [List.cons_append, mapSet, hak]
      simp [ih h]

/-- Looking a key up in a permuted association list with duplicate-free
keys gives the same result. -/
theorem lookup_perm {α β : Type} [BEq α] [LawfulBEq α] {l1 l2 : List (α × β)}
    (h : l1.Perm l2) (hnd : (l1.map Prod.fst).Nodup) (k : α) :
    List.lookup k l1 = List.lookup k l2 := by
  induction h with
  | nil => rfl
  | cons p _ ih =>
    obtain ⟨a, b⟩ := p
    simp only [List.map_cons, List.nodup_cons] at hnd
    by_cases hka : (k == a) = true
    · simp [List.lookup, hka]
    · simp only [Bool.not_eq_true] at hka
      simp [List.lookup, hka, ih hnd.2]
  | swap p q rest =>
    obtain ⟨a, b⟩ := p
    obtain ⟨c, d⟩ := q
    simp only [List.map_cons, List.nodup_cons, List.mem_cons] at hnd
    have hca : ¬(c = a) := fun he => hnd.1 (Or.inl he)
    by_cases hkc : (k == c) = true
    · have hk : k = c := by simpa [beq_iff_eq] using hkc
      subst hk
      have hka : (k == a) = false := beq_eq_false_iff_ne.mpr hca
      simp [List.lookup, hkc, hka]
    · simp only [Bool.not_eq_true] at hkc
      by_cases hka : (k == a) = true
      · simp [List.lookup, hka, hkc]
      · simp only [Bool.not_eq_true] at hka
        simp [List.lookup, hka, hkc]
  | trans h1 _ ih1 ih2 =>
    have hnd2 := (h1.map Prod.fst).nodup_iff.mp hnd
    exact (ih1 hnd).trans (ih2 hnd2)

theorem flatMap_congr_mem {α β : Type} {l : List α} {f g : α → List β}
    (hfg : ∀ a ∈ l, f a = g a) : l.flatMap f = l.flatMap g := by
  induction l with
  | nil => rfl
  | cons a rest ih =>
    simp only [List.flatMap_cons]
    rw [hfg a (List.mem_cons_self a rest),
      ih (fun x hx => hfg x (List.mem_cons_of_mem a hx))]

/-- A permutation combined with pointwise-equal contribution functions
permutes the flattened contributions. -/
theorem perm_flatMap_congr {α β : Type} {l1 l2 : List α} (h : l1.Perm l2)
    (f g : α → List β) (hfg : ∀ a ∈ l1, f a = g a) :
    (l1.flatMap f).Perm (l2.flatMap g) := by
  rw [flatMap_congr_mem hfg]
  exact h.flatMap_right g

theorem flatMap_sublist_flatMap {α β : Type} (l : List α) (f g : α → List β)
    (h : ∀ a ∈ l, (f a).Sublist (g a)) :
    (l.flatMap f).Sublist (l.flatMap g) := by
  induction l with
  | nil => simp
  | cons a rest ih =>
    simp only [List.flatMap_cons]
    exact (h a (List.mem_cons_self a rest)).append
      (ih (fun x hx => h x (List.mem_cons_of_mem a hx)))

theorem perm_all_congr {α : Type} {l1 l2 : List α} (h : l1.Perm l2) (p : α → Bool) :
    l1.all p = l2.all p := by
  induction h with
  | nil => rfl
  | cons a _ ih => simp [List.all_cons, ih]
  | swap a b rest => simp [List.all_cons, Bool.and_left_comm, Bool.and_assoc, Bool.and_comm]
  | trans _ _ ih1 ih2 => exact ih1.trans ih2

/-! ## Order (in)dependence: congruence in the file map

Processing reads the file map only through key lookups; runs over file
maps with equal lookups (at the keys the nodes reference) agree. -/

theorem astSrcToSourceLocation_congr {src : AstSrc} {filesA filesB : FileMap}
    (h : List.lookup src.fileIndex filesA = List.lookup src.fileIndex filesB) :
    astSrcToSourceLocation src filesA = astSrcToSourceLocation src filesB := by
  unfold astSrcToSourceLocation
  rw [h]

theorem processFunctionDefinitionAstNode_congr (node : FunctionDefinitionNode)
    {filesA filesB : FileMap} (contract : Option Contract)
    (functionAbis : Option (List ContractAbiItem))
    (h : List.lookup node.src.fileIndex filesA = List.lookup node.src.fileIndex filesB) :
    processFunctionDefinitionAstNode node filesA contract functionAbis
      = processFunctionDefinitionAstNode node filesB contract functionAbis := by
  unfold processFunctionDefinitionAstNode
  rw [astSrcToSourceLocation_congr h]

theorem processContractSubNode_congr (subNode : ContractSubNode)
    {filesA filesB : FileMap} (contractAbi : Option (List ContractAbiItem))
    (c : Contract) (fl : SourceFile) (fid : Nat)
    (href : subNodeRefsFile fid subNode = true)
    (h : List.lookup fid filesA = List.lookup fid filesB) :
    processContractSubNode filesA contractAbi subNode c fl
      = processContractSubNode filesB contractAbi subNode c fl := by
  cases subNode with
  | functionDefinition node =>
    simp only [subNodeRefsFile, beq_iff_eq] at href
    have h' : List.lookup node.src.fileIndex filesA
        = List.lookup node.src.fileIndex filesB := by rw [href]; exact h
    simp only [processContractSubNode]
    rw [processFunctionDefinitionAstNode_congr node _ _ h']
  | modifierDefinition node =>
    simp only [subNodeRefsFile, beq_iff_eq] at href
    have h' : List.lookup node.src.fileIndex filesA
        = List.lookup node.src.fileIndex filesB := by rw [href]; exact h
    simp only [processContractSubNode]
    rw [astSrcToSourceLocation_congr h']
  | variableDeclaration node =>
    simp only [subNodeRefsFile, beq_iff_eq] at href
    have h' : List.lookup node.src.fileIndex filesA
        = List.lookup node.src.fileIndex filesB := by rw [href]; exact h
    simp only [processContractSubNode]
    rw [astSrcToSourceLocation_congr h']
  | otherNode => rfl

theorem processContractNodesGo_congr {filesA filesB : FileMap}
    (contractAbi : Option (List ContractAbiItem)) (fid : Nat)
    (h : List.lookup fid filesA = List.lookup fid filesB) :
    ∀ (nodes : List ContractSubNode) (st : Contract × SourceFile),
      nodes.all (subNodeRefsFile fid) = true →
      processContractNodesGo filesA contractAbi nodes st
        = processContractNodesGo filesB contractAbi nodes st
  | [], _, _ => rfl
  | subNode :: rest, st, hall => by
    simp only [List.all_cons, Bool.and_eq_true] at hall
    simp only [processContractNodesGo]
    rw [processContractSubNode_congr subNode contractAbi st.1 st.2 fid hall.1 h]
    cases hst : processContractSubNode filesB contractAbi subNode st.1 st.2 with
    | error e => simp [Bind.bind, Except.bind]
    | ok st' =>
      simp only [Bind.bind, Except.bind]
      exact processContractNodesGo_congr contractAbi fid h rest st' hall.2

theorem processContractAstNode_congr (file : SourceFile)
    (contractNode : ContractDefinitionNode) {filesA filesB : FileMap}
    (contractType : ContractType) (cmap : ContractMap) (bmap : BasesMap)
    (contractAbi : Option (List ContractAbiItem)) (fid : Nat)
    (hsrc : contractNode.src.fileIndex = fid)
    (hnodes : contractNode.nodes.all (subNodeRefsFile fid) = true)
    (h : List.lookup fid filesA = List.lookup fid filesB) :
    processContractAstNode file contractNode filesA contractType cmap bmap contractAbi
      = processContractAstNode file contractNode filesB contractType cmap bmap contractAbi := by
  have h' : List.lookup contractNode.src.fileIndex filesA
      = List.lookup contractNode.src.fileIndex filesB := by rw [hsrc]; exact h
  unfold processContractAstNode
  rw [astSrcToSourceLocation_congr h']
  cases astSrcToSourceLocation contractNode.src filesB with
  | none => rfl
  | some loc =>
    simp only
    rw [processContractNodesGo_congr contractAbi fid h contractNode.nodes _ hnodes]

theorem processSourceAstNode_congr {filesA filesB : FileMap}
    (contractToAbi : Option (List (String × List ContractAbiItem)))
    (node : SourceAstNode) (st : SourceFile × ContractMap × BasesMap) (fid : Nat)
    (href : nodeRefsFile fid node = true)
    (h : List.lookup fid filesA = List.lookup fid filesB) :
    processSourceAstNode filesA contractToAbi node st
      = processSourceAstNode filesB contractToAbi node st := by
  cases node with
  | contractDefinition c =>
    simp only [nodeRefsFile, Bool.and_eq_true, beq_iff_eq] at href
    simp only [processSourceAstNode]
    cases contractKindToContractType c.contractKind with
    | none => rfl
    | some ct =>
      simp only
      exact processContractAstNode_congr st.1 c ct st.2.1 st.2.2 _ fid href.1 href.2 h
  | functionDefinition f =>
    simp only [nodeRefsFile, beq_iff_eq] at href
    have h' : List.lookup f.src.fileIndex filesA
        = List.lookup f.src.fileIndex filesB := by rw [href]; exact h
    simp only [processSourceAstNode]
    rw [processFunctionDefinitionAstNode_congr f none none h']
  | otherNode => rfl

theorem processSourceNodesGo_congr {filesA filesB : FileMap}
    (contractToAbi : Option (List (String × List ContractAbiItem))) (fid : Nat)
    (h : List.lookup fid filesA = List.lookup fid filesB) :
    ∀ (nodes : List SourceAstNode) (st : SourceFile × ContractMap × BasesMap),
      nodes.all (nodeRefsFile fid) = true →
      processSourceNodesGo filesA contractToAbi nodes st
        = processSourceNodesGo filesB contractToAbi nodes st
  | [], _, _ => rfl
  | node :: rest, st, hall => by
    simp only [List.all_cons, Bool.and_eq_true] at hall
    simp only [processSourceNodesGo]
    rw [processSourceAstNode_congr contractToAbi node st fid hall.1 h]
    cases hst : processSourceAstNode filesB contractToAbi node st with
    | error e => simp [Bind.bind, Except.bind]
    | ok st' =>
      simp only [Bind.bind, Except.bind]
      exact processSourceNodesGo_congr contractToAbi fid h rest st' hall.2

theorem resolveSourceMapLocation_congr {filesA filesB : FileMap}
    (h : ∀ k, List.lookup k filesA = List.lookup k filesB) (sm : SourceMapLocation) :
    resolveSourceMapLocation filesA sm = resolveSourceMapLocation filesB sm := by
  unfold resolveSourceMapLocation
  rw [h]

theorem decodeInstructionsLoop_congr {filesA filesB : FileMap}
    (h : ∀ k, List.lookup k filesA = List.lookup k filesB) :
    ∀ (fuel : Nat) (code : Bytes) (locs : List SourceMapLocation) (pc : Nat),
      decodeInstructionsLoop filesA fuel code locs pc
        = decodeInstructionsLoop filesB fuel code locs pc
  | 0, _, _, _ => rfl
  | _ + 1, [], _, _ => rfl
  | fuel + 1, opcode :: rest, locs, pc => by
    simp only [decodeInstructionsLoop]
    rw [resolveSourceMapLocation_congr h,
      decodeInstructionsLoop_congr h fuel (rest.drop (opcode - 0x5f)) locs.tail
        (pc + 1 + (opcode - 0x5f)),
      decodeInstructionsLoop_congr h fuel rest locs.tail (pc + 1)]

theorem decodeEvmBytecode_congr (contract : Contract) (v : String) (isDep : Bool)
    (cb : CompilerOutputBytecode) {filesA filesB : FileMap}
    (h : ∀ k, List.lookup k filesA = List.lookup k filesB) :
    decodeEvmBytecode contract v isDep cb filesA
      = decodeEvmBytecode contract v isDep cb filesB := by
  simp only [decodeEvmBytecode, decodeInstructions]
  rw [decodeInstructionsLoop_congr h]

theorem contractBytecodeContribution_congr (v : String)
    {output1 output2 : CompilerOutput} (hc : output2.contracts = output1.contracts)
    {filesA filesB : FileMap}
    (h : ∀ k, List.lookup k filesA = List.lookup k filesB) (e : Nat × Contract) :
    contractBytecodeContribution v output2 filesB e
      = contractBytecodeContribution v output1 filesA e := by
  unfold contractBytecodeContribution evmOutputFor
  rw [hc]
  cases (List.lookup e.2.location.sourceName output1.contracts).bind
      (List.lookup e.2.name) with
  | none => rfl
  | some oc =>
    simp only
    rw [decodeEvmBytecode_congr _ _ _ _ (fun k => (h k).symm),
      decodeEvmBytecode_congr _ _ _ _ (fun k => (h k).symm)]

theorem contractAfterDecode_congr {output1 output2 : CompilerOutput}
    (hc : output2.contracts = output1.contracts) (e : Nat × Contract) :
    contractAfterDecode output2 e = contractAfterDecode output1 e := by
  unfold contractAfterDecode evmOutputFor
  rw [hc]

theorem inheritedFunctionSurface_congr {m1 m2 : ContractMap}
    (h : ∀ k, List.lookup k m1 = List.lookup k m2) (c : Contract) :
    inheritedFunctionSurface m1 c = inheritedFunctionSurface m2 c := by
  unfold inheritedFunctionSurface
  refine flatMap_congr_mem (fun baseId _ => ?_)
  rw [h baseId]

theorem correctSelectors_congr {m1 m2 : ContractMap}
    (h : ∀ k, List.lookup k m1 = List.lookup k m2) (bcs : List Bytecode) :
    correctSelectors bcs m1 = correctSelectors bcs m2 := by
  unfold correctSelectors
  refine List.map_congr_left (fun bc _ => ?_)
  rw [inheritedFunctionSurface_congr h]

/-! ## Order (in)dependence: per-source delta lemmas

Registering a source only appends to the contract and bases maps (under
fresh ids) and only touches its own entry of the file map, so its
contribution is computable locally, independent of previously registered
sources. -/

theorem mapSet_mapSet_same {α β : Type} [BEq α] [LawfulBEq α] (k : α) (v v' : β)
    (l : List (α × β)) : mapSet k v' (mapSet k v l) = mapSet k v' l := by
  induction l with
  | nil => simp [mapSet]
  | cons p rest ih =>
    obtain ⟨a, b⟩ := p
    simp only [mapSet]
    by_cases ha : (a == k) = true
    · simp [mapSet, ha]
    · simp [mapSet, ha, ih]

theorem lookup_eq_none_of_not_mem_keys {α β : Type} [BEq α] [LawfulBEq α]
    {l : List (α × β)} {k : α} (h : k ∉ l.map Prod.fst) : List.lookup k l = none := by
  induction l with
  | nil => rfl
  | cons p rest ih =>
    obtain ⟨a, b⟩ := p
    simp only [List.map_cons, List.mem_cons] at h
    have hka : (k == a) = false :=
      beq_eq_false_iff_ne.mpr (fun he => h (Or.inl he))
    simp only [List.lookup, hka]
    exact ih (fun hm => h (Or.inr hm))

/-- One top-level node's processing from a state whose contract and bases
maps carry an untouched prefix equals the processing from the suffix
alone, with the prefix re-attached. -/
theorem processSourceAstNode_delta {files : FileMap}
    (abi : Option (List (String × List ContractAbiItem)))
    (node : SourceAstNode) (fl : SourceFile)
    (cmap dc : ContractMap) (bmap db : BasesMap)
    (hc : ∀ i ∈ nodeContractIds node, List.lookup i cmap = none)
    (hb : ∀ i ∈ nodeContractIds node, List.lookup i bmap = none) :
    processSourceAstNode files abi node (fl, cmap ++ dc, bmap ++ db)
      = match processSourceAstNode files abi node (fl, dc, db) with
        | Except.error e => Except.error e
        | Except.ok (f2, dc2, db2) => Except.ok (f2, cmap ++ dc2, bmap ++ db2) := by
  cases node with
  | contractDefinition c =>
    have hcid : List.lookup c.id cmap = none := hc c.id (by simp [nodeContractIds])
    have hbid : List.lookup c.id bmap = none := hb c.id (by simp [nodeContractIds])
    simp only [processSourceAstNode]
    cases contractKindToContractType c.contractKind with
    | none => rfl
    | some ct =>
      simp only [processContractAstNode]
      cases astSrcToSourceLocation c.src files with
      | none => rfl
      | some loc =>
        simp only
        cases processContractNodesGo files (abi.bind (List.lookup c.name)) c.nodes
            ({ name := c.name, contractType := ct, location := loc, localFunctions := [],
               linearizedBaseContracts := [], customErrors := [],
               inheritedFunctions := [] }, fl) with
        | error e => simp [Bind.bind, Except.bind]
        | ok st' =>
          simp only [Bind.bind, Except.bind]
          rw [mapSet_append c.id st'.1 cmap dc hcid,
            mapSet_append c.id c.linearizedBaseContracts bmap db hbid]
  | functionDefinition f =>
    simp only [processSourceAstNode]
    cases processFunctionDefinitionAstNode f files none none with
    | error e => rfl
    | ok res => cases res with
      | none => rfl
      | some fn => rfl
  | otherNode => rfl

theorem processSourceNodesGo_delta {files : FileMap}
    (abi : Option (List (String × List ContractAbiItem))) :
    ∀ (nodes : List SourceAstNode) (fl : SourceFile) (cmap dc : ContractMap)
      (bmap db : BasesMap),
      (∀ i ∈ nodes.flatMap nodeContractIds, List.lookup i cmap = none) →
      (∀ i ∈ nodes.flatMap nodeContractIds, List.lookup i bmap = none) →
      processSourceNodesGo files abi nodes (fl, cmap ++ dc, bmap ++ db)
        = match processSourceNodesGo files abi nodes (fl, dc, db) with
          | Except.error e => Except.error e
          | Except.ok (f2, dc2, db2) => Except.ok (f2, cmap ++ dc2, bmap ++ db2)
  | [], fl, cmap, dc, bmap, db, _, _ => rfl
  | node :: rest, fl, cmap, dc, bmap, db, hc, hb => by
    have hcn : ∀ i ∈ nodeContractIds node, List.lookup i cmap = none :=
      fun i hi => hc i (by simp only [List.flatMap_cons, List.mem_append]; exact Or.inl hi)
    have hbn : ∀ i ∈ nodeContractIds node, List.lookup i bmap = none :=
      fun i hi => hb i (by simp only [List.flatMap_cons, List.mem_append]; exact Or.inl hi)
    have hcr : ∀ i ∈ rest.flatMap nodeContractIds, List.lookup i cmap = none :=
      fun i hi => hc i (by simp only [List.flatMap_cons, List.mem_append]; exact Or.inr hi)
    have hbr : ∀ i ∈ rest.flatMap nodeContractIds, List.lookup i bmap = none :=
      fun i hi => hb i (by simp only [List.flatMap_cons, List.mem_append]; exact Or.inr hi)
    simp only [processSourceNodesGo]
    rw [processSourceAstNode_delta abi node fl cmap dc bmap db hcn hbn]
    cases hst : processSourceAstNode files abi node (fl, dc, db) with
    | error e => simp [Bind.bind, Except.bind]
    | ok st' =>
      obtain ⟨f2, dc2, db2⟩ := st'
      simp only [Bind.bind, Except.bind]
      exact processSourceNodesGo_delta abi rest f2 cmap dc2 bmap db2 hcr hbr

/-- Registering one source from an arbitrary state equals the source's
locally computed delta appended to that state. -/
theorem processSource_delta (input : CompilerInput)
    (abiMap : List (String × List (String × List ContractAbiItem)))
    (files : FileMap) (cmap : ContractMap) (bmap : BasesMap)
    (entry : String × CompilerOutputSource)
    (hwf : entry.2.ast.nodes.all (nodeRefsFile entry.2.id) = true)
    (hc : ∀ i ∈ sourceContractIds entry, List.lookup i cmap = none)
    (hb : ∀ i ∈ sourceContractIds entry, List.lookup i bmap = none) :
    processSource input abiMap (files, cmap, bmap) entry
      = match sourceDelta input abiMap entry with
        | Except.error e => Except.error e
        | Except.ok (f, dcL, dbL) =>
          Except.ok (mapSet entry.2.id f files, cmap ++ dcL, bmap ++ dbL) := by
  unfold processSource sourceDelta
  cases hin : List.lookup entry.1 input.sources with
  | none => simp [hin]
  | some inputSource =>
    simp only [hin]
    have hlk : List.lookup entry.2.id
        (mapSet entry.2.id
          { sourceName := entry.1, content := inputSource.content, functions := [] } files)
        = List.lookup entry.2.id
            [(entry.2.id,
              { sourceName := entry.1, content := inputSource.content,
                functions := ([] : List ContractFunction) })] := by
      rw [lookup_mapSet_self]
      simp [List.lookup]
    rw [processSourceNodesGo_congr (List.lookup entry.1 abiMap) entry.2.id hlk
      entry.2.ast.nodes _ hwf]
    have hdelta := @processSourceNodesGo_delta
      [(entry.2.id,
        { sourceName := entry.1, content := inputSource.content, functions := [] })]
      (List.lookup entry.1 abiMap) entry.2.ast.nodes
      { sourceName := entry.1, content := inputSource.content, functions := [] }
      cmap [] bmap [] hc hb
    simp only [List.append_nil] at hdelta
    rw [hdelta]
    cases hw : processSourceNodesGo
        [(entry.2.id,
          { sourceName := entry.1, content := inputSource.content, functions := [] })]
        (List.lookup entry.1 abiMap) entry.2.ast.nodes
        ({ sourceName := entry.1, content := inputSource.content, functions := [] },
          [], []) with
    | error e => simp [Bind.bind, Except.bind]
    | ok st' =>
      obtain ⟨f2, dc2, db2⟩ := st'
      simp only [Bind.bind, Except.bind]
      rw [mapSet_mapSet_same]

/-! ## Order (in)dependence: keys of the appended deltas -/

/-- One top-level node either leaves the contract and bases maps unchanged
or appends one entry to each, under the same fresh contract id. -/
theorem processSourceAstNode_keys {files : FileMap}
    (abi : Option (List (String × List ContractAbiItem))) (node : SourceAstNode)
    (fl : SourceFile) (cmap : ContractMap) (bmap : BasesMap)
    (fl' : SourceFile) (cmap' : ContractMap) (bmap' : BasesMap)
    (h : processSourceAstNode files abi node (fl, cmap, bmap)
        = Except.ok (fl', cmap', bmap'))
    (hfresh : ∀ i ∈ nodeContractIds node,
      List.lookup i cmap = none ∧ List.lookup i bmap = none) :
    (cmap' = cmap ∧ bmap' = bmap) ∨
    ∃ cid c ids, nodeContractIds node = [cid] ∧
      cmap' = cmap ++ [(cid, c)] ∧ bmap' = bmap ++ [(cid, ids)] := by
  cases node with
  | contractDefinition c =>
    obtain ⟨hcid, hbid⟩ := hfresh c.id (by simp [nodeContractIds])
    simp only [processSourceAstNode] at h
    cases hk : contractKindToContractType c.contractKind with
    | none =>
      rw [hk] at h
      simp only [Except.ok.injEq, Prod.mk.injEq] at h
      exact Or.inl ⟨h.2.1.symm, h.2.2.symm⟩
    | some ct =>
      rw [hk] at h
      simp only [processContractAstNode] at h
      split at h
      · simp at h
      next loc hloc =>
        obtain ⟨⟨cf, ff⟩, hgo, h2⟩ := except_bind_ok h
        simp only [Except.ok.injEq, Prod.mk.injEq] at h2
        refine Or.inr ⟨c.id, cf, c.linearizedBaseContracts, by simp [nodeContractIds],
          ?_, ?_⟩
        · rw [← h2.2.1, mapSet_fresh c.id cf cmap hcid]
        · rw [← h2.2.2, mapSet_fresh c.id c.linearizedBaseContracts bmap hbid]
  | functionDefinition f =>
    simp only [processSourceAstNode] at h
    cases hp : processFunctionDefinitionAstNode f files none none with
    | error e => rw [hp] at h; simp at h
    | ok res =>
      rw [hp] at h
      cases res with
      | none =>
        simp only [Except.ok.injEq, Prod.mk.injEq] at h
        exact Or.inl ⟨h.2.1.symm, h.2.2.symm⟩
      | some fn =>
        simp only [Except.ok.injEq, Prod.mk.injEq] at h
        exact Or.inl ⟨h.2.1.symm, h.2.2.symm⟩
  | otherNode =>
    simp only [processSourceAstNode, Except.ok.injEq, Prod.mk.injEq] at h
    exact Or.inl ⟨h.2.1.symm, h.2.2.symm⟩

/-- The walk of a source's top-level nodes appends the same fresh keys, in
the same order, to the contract map and the bases map; those keys are an
ordered sublist of the source's contract-definition ids. -/
theorem processSourceNodesGo_keys {files : FileMap}
    (abi : Option (List (String × List ContractAbiItem))) :
    ∀ (nodes : List SourceAstNode) (fl : SourceFile) (cmap : ContractMap)
      (bmap : BasesMap) (fl2 : SourceFile) (cmap2 : ContractMap) (bmap2 : BasesMap),
      processSourceNodesGo files abi nodes (fl, cmap, bmap)
        = Except.ok (fl2, cmap2, bmap2) →
      (∀ i ∈ nodes.flatMap nodeContractIds,
        List.lookup i cmap = none ∧ List.lookup i bmap = none) →
      (nodes.flatMap nodeContractIds).Nodup →
      ∃ newKeys, cmap2.map Prod.fst = cmap.map Prod.fst ++ newKeys ∧
        bmap2.map Prod.fst = bmap.map Prod.fst ++ newKeys ∧
        newKeys.Sublist (nodes.flatMap nodeContractIds)
  | [], fl, cmap, bmap, fl2, cmap2, bmap2, h, _, _ => by
    simp only [processSourceNodesGo, Except.ok.injEq, Prod.mk.injEq] at h
    exact ⟨[], by simp [h.2.1], by simp [h.2.2], by simp⟩
  | node :: rest, fl, cmap, bmap, fl2, cmap2, bmap2, h, hfresh, hnd => by
    simp only [List.flatMap_cons] at hnd
    have hndn := List.nodup_append.mp hnd
    simp only [processSourceNodesGo] at h
    obtain ⟨⟨fl', cmap', bmap'⟩, hstep, hrest⟩ := except_bind_ok h
    have hfn : ∀ i ∈ nodeContractIds node,
        List.lookup i cmap = none ∧ List.lookup i bmap = none :=
      fun i hi => hfresh i (by simp only [List.flatMap_cons, List.mem_append]; exact Or.inl hi)
    rcases processSourceAstNode_keys abi node fl cmap bmap fl' cmap' bmap' hstep hfn with
      ⟨hceq, hbeq⟩ | ⟨cid, cval, ids, hids, hceq, hbeq⟩
    · rw [hceq, hbeq] at hrest
      obtain ⟨newKeys, h1, h2, h3⟩ :=
        processSourceNodesGo_keys abi rest fl' cmap bmap fl2 cmap2 bmap2 hrest
          (fun i hi => hfresh i
            (by simp only [List.flatMap_cons, List.mem_append]; exact Or.inr hi))
          hndn.2.1
      exact ⟨newKeys, h1, h2,
        h3.trans (List.sublist_append_right (nodeContractIds node) _)⟩
    · subst hceq hbeq
      have hcidrest : cid ∉ rest.flatMap nodeContractIds := by
        intro hmem
        exact hndn.2.2 (by rw [hids]; exact List.mem_singleton_self cid) hmem
      obtain ⟨newKeys, h1, h2, h3⟩ :=
        processSourceNodesGo_keys abi rest fl' (cmap ++ [(cid, cval)])
          (bmap ++ [(cid, ids)]) fl2 cmap2 bmap2 hrest
          (fun i hi => by
            obtain ⟨hic, hib⟩ := hfresh i
              (by simp only [List.flatMap_cons, List.mem_append]; exact Or.inr hi)
            have hicid : ¬(i = cid) := fun he => hcidrest (he ▸ hi)
            constructor
            · rw [lookup_append]
              simp only [hic]
              simp [List.lookup, beq_eq_false_iff_ne.mpr hicid]
            · rw [lookup_append]
              simp only [hib]
              simp [List.lookup, beq_eq_false_iff_ne.mpr hicid])
          hndn.2.1
      refine ⟨cid :: newKeys, ?_, ?_, ?_⟩
      · rw [h1]
        simp [List.append_assoc]
      · rw [h2]
        simp [List.append_assoc]
      · simp only [List.flatMap_cons, hids]
        simpa using List.Sublist.cons₂ cid h3

/-- The locally computed contract and bases deltas of one source share
their keys, an ordered sublist of the source's contract ids. -/
theorem sourceDelta_keys (input : CompilerInput)
    (abiMap : List (String × List (String × List ContractAbiItem)))
    (entry : String × CompilerOutputSource) (f : SourceFile)
    (dcL : ContractMap) (dbL : BasesMap)
    (h : sourceDelta input abiMap entry = Except.ok (f, dcL, dbL))
    (hnd : (sourceContractIds entry).Nodup) :
    dcL.map Prod.fst = dbL.map Prod.fst ∧
    (dcL.map Prod.fst).Sublist (sourceContractIds entry) := by
  unfold sourceDelta at h
  cases hin : List.lookup entry.1 input.sources with
  | none => rw [hin] at h; simp at h
  | some inputSource =>
    rw [hin] at h
    obtain ⟨newKeys, h1, h2, h3⟩ := processSourceNodesGo_keys _ entry.2.ast.nodes
      _ [] [] f dcL dbL h (by simp) hnd
    simp only [List.map_nil, List.nil_append] at h1 h2
    exact ⟨h1.trans h2.symm, h1 ▸ h3⟩

/-! ## Order (in)dependence: the first pass as a concatenation of
independent per-source deltas -/

theorem registerSourcesGo_spec (input : CompilerInput)
    (abiMap : List (String × List (String × List ContractAbiItem))) :
    ∀ (sources : List (String × CompilerOutputSource)) (files : FileMap)
      (cmap : ContractMap) (bmap : BasesMap) (out : FileMap × ContractMap × BasesMap),
      registerSourcesGo input abiMap sources (files, cmap, bmap) = Except.ok out →
      sources.all (fun e => e.2.ast.nodes.all (nodeRefsFile e.2.id)) = true →
      (sources.flatMap sourceContractIds).Nodup →
      (∀ e ∈ sources, ∀ i ∈ sourceContractIds e,
        List.lookup i cmap = none ∧ List.lookup i bmap = none) →
      (∀ e ∈ sources, List.lookup e.2.id files = none) →
      (sources.map (fun e => e.2.id)).Nodup →
      (∀ e ∈ sources, ∃ d, sourceDelta input abiMap e = Except.ok d) ∧
      out = (files ++ sources.map (fun e => (e.2.id, deltaFileOf input abiMap e)),
             cmap ++ sources.flatMap (deltaContractsOf input abiMap),
             bmap ++ sources.flatMap (deltaBasesOf input abiMap))
  | [], files, cmap, bmap, out, h, _, _, _, _, _ => by
    simp only [registerSourcesGo, Except.ok.injEq] at h
    subst h
    simp
  | e :: rest, files, cmap, bmap, out, h, hwf, hnd, hfr, hff, hfid => by
    simp only [List.all_cons, Bool.and_eq_true] at hwf
    simp only [List.flatMap_cons] at hnd
    have hnde := List.nodup_append.mp hnd
    simp only [List.map_cons, List.nodup_cons] at hfid
    simp only [registerSourcesGo] at h
    rw [processSource_delta input abiMap files cmap bmap e hwf.1
      (fun i hi => (hfr e (List.mem_cons_self e rest) i hi).1)
      (fun i hi => (hfr e (List.mem_cons_self e rest) i hi).2)] at h
    cases hd : sourceDelta input abiMap e with
    | error err => rw [hd] at h; simp [Bind.bind, Except.bind] at h
    | ok d =>
      obtain ⟨f, dcL, dbL⟩ := d
      rw [hd] at h
      simp only [Bind.bind, Except.bind] at h
      rw [mapSet_fresh e.2.id f files (hff e (List.mem_cons_self e rest))] at h
      obtain ⟨hkeq, hksub⟩ := sourceDelta_keys input abiMap e f dcL dbL hd hnde.1
      have hdisj := hnde.2.2
      have hfr' : ∀ e' ∈ rest, ∀ i ∈ sourceContractIds e',
          List.lookup i (cmap ++ dcL) = none ∧ List.lookup i (bmap ++ dbL) = none := by
        intro e' he' i hi
        have himem : i ∈ rest.flatMap sourceContractIds := List.mem_flatMap.mpr ⟨e', he', hi⟩
        have hie : i ∉ sourceContractIds e := fun hin => hdisj hin himem
        have hic : i ∉ dcL.map Prod.fst := fun hin => hie (hksub.mem hin)
        have hib : i ∉ dbL.map Prod.fst := by rw [← hkeq]; exact hic
        obtain ⟨h1, h2⟩ := hfr e' (List.mem_cons_of_mem e he') i hi
        constructor
        · rw [lookup_append]
          simp only [h1]
          exact lookup_eq_none_of_not_mem_keys hic
        · rw [lookup_append]
          simp only [h2]
          exact lookup_eq_none_of_not_mem_keys hib
      have hff' : ∀ e' ∈ rest, List.lookup e'.2.id (files ++ [(e.2.id, f)]) = none := by
        intro e' he'
        have hne : ¬(e'.2.id = e.2.id) := by
          intro heq
          exact hfid.1 (heq ▸ List.mem_map_of_mem (fun x => x.2.id) he')
        rw [lookup_append]
        simp only [hff e' (List.mem_cons_of_mem e he')]
        simp [List.lookup, beq_eq_false_iff_ne.mpr hne]
      obtain ⟨hok, hout⟩ := registerSourcesGo_spec input abiMap rest (files ++ [(e.2.id, f)])
        (cmap ++ dcL) (bmap ++ dbL) out h hwf.2 hnde.2.1 hfr' hff' hfid.2
      have hdf : deltaFileOf input abiMap e = f := by unfold deltaFileOf; rw [hd]
      have hdc : deltaContractsOf input abiMap e = dcL := by unfold deltaContractsOf; rw [hd]
      have hdb : deltaBasesOf input abiMap e = dbL := by unfold deltaBasesOf; rw [hd]
      constructor
      · intro e' he'
        rcases List.mem_cons.mp he' with rfl | he2
        · exact ⟨(f, dcL, dbL), hd⟩
        · exact hok e' he2
      · rw [hout]
        simp [hdf, hdc, hdb, List.append_assoc]

theorem forall₂_ok_map {α β : Type} {f : α → Except String β} {g : α → β}
    {l : List α} {l' : List β}
    (hfa : List.Forall₂ (fun a b => f a = Except.ok b) l l')
    (hg : ∀ a b, f a = Except.ok b → b = g a) :
    l' = l.map g := by
  induction hfa with
  | nil => rfl
  | cons hr _ ih => simp [List.map_cons, ih, hg _ _ hr]

theorem applyContractsInheritance_ok_map (cmap : ContractMap) (bmap : BasesMap)
    (cmap' : ContractMap)
    (h : applyContractsInheritance cmap bmap = Except.ok cmap') :
    cmap' = cmap.map (inheritanceResolved cmap bmap) := by
  refine forall₂_ok_map (exceptMapM_ok_forall₂ _ cmap cmap' h) ?_
  intro entry b hb
  cases hl : List.lookup entry.1 bmap with
  | none => rw [hl] at hb; simp at hb
  | some ids =>
    rw [hl] at hb
    simp only [Except.ok.injEq] at hb
    rw [← hb]
    unfold inheritanceResolved
    rw [hl]
    rfl

theorem nodup_of_flatMap_nodup {α β : Type} {l : List α} {f : α → List β}
    (h : (l.flatMap f).Nodup) : ∀ a ∈ l, (f a).Nodup := by
  induction l with
  | nil => intro a ha; cases ha
  | cons x rest ih =>
    simp only [List.flatMap_cons] at h
    have hx := List.nodup_append.mp h
    intro a ha
    rcases List.mem_cons.mp ha with rfl | ha2
    · exact hx.1
    · exact ih hx.2.1 a ha2

/-! ## Claim C8 (corrected) -/

/-- C8 (amended): for two compiler outputs equal up to the enumeration
order of source files (well-formed: locations reference their own file,
file ids and contract ids duplicate-free), two successful runs of the full
build produce bytecode lists that are permutations of each other — each
contract's model content is order-independent, but the order of the
returned bytecode list follows the enumeration order and is not itself
preserved. -/
theorem claim8_amended_enumeration_order_only_permutes_bytecode_list
    (v : String) (input : CompilerInput) (output1 output2 : CompilerOutput)
    (bs1 bs2 : List Bytecode)
    (hsp : output1.sources.Perm output2.sources)
    (hc : output2.contracts = output1.contracts)
    (hwf : sourcesWellFormed output1 = true)
    (hfids : (output1.sources.map (fun e => e.2.id)).Nodup)
    (hcids : (allContractIds output1).Nodup)
    (h1 : createModelsAndDecodeBytecodes v input output1 = Except.ok bs1)
    (h2 : createModelsAndDecodeBytecodes v input output2 = Except.ok bs2) :
    bs2.Perm bs1 := by
  have habi : buildAbiMap output2 = buildAbiMap output1 := by
    unfold buildAbiMap; rw [hc]
  unfold createModelsAndDecodeBytecodes at h1 h2
  obtain ⟨model1, hm1, h1'⟩ := except_bind_ok h1
  obtain ⟨dec1, hd1, h1''⟩ := except_bind_ok h1'
  simp only [Except.ok.injEq] at h1''
  obtain ⟨model2, hm2, h2'⟩ := except_bind_ok h2
  obtain ⟨dec2, hd2, h2''⟩ := except_bind_ok h2'
  simp only [Except.ok.injEq] at h2''
  obtain ⟨files1, cmap1, bmap1, hr1, happ1, hf1⟩ :=
    createSourcesModelFromAst_ok output1 input model1 hm1
  obtain ⟨files2, cmap2, bmap2, hr2, happ2, hf2⟩ :=
    createSourcesModelFromAst_ok output2 input model2 hm2
  unfold registerAllSources at hr1 hr2
  rw [habi] at hr2
  have hwfall : output1.sources.all
      (fun e => e.2.ast.nodes.all (nodeRefsFile e.2.id)) = true := hwf
  obtain ⟨hok1, hout1⟩ := registerSourcesGo_spec input (buildAbiMap output1)
    output1.sources [] [] [] (files1, cmap1, bmap1) hr1 hwfall hcids
    (fun e _ i _ => ⟨rfl, rfl⟩) (fun e _ => rfl) hfids
  have hwf2 : output2.sources.all
      (fun e => e.2.ast.nodes.all (nodeRefsFile e.2.id)) = true := by
    rw [← perm_all_congr hsp]; exact hwfall
  have hcids2 : (output2.sources.flatMap sourceContractIds).Nodup :=
    ((hsp.flatMap_right sourceContractIds).nodup_iff).mp hcids
  have hfids2 : (output2.sources.map (fun e => e.2.id)).Nodup :=
    ((hsp.map (fun e => e.2.id)).nodup_iff).mp hfids
  obtain ⟨hok2, hout2⟩ := registerSourcesGo_spec input (buildAbiMap output1)
    output2.sources [] [] [] (files2, cmap2, bmap2) hr2 hwf2 hcids2
    (fun e _ i _ => ⟨rfl, rfl⟩) (fun e _ => rfl) hfids2
  simp only [List.nil_append, Prod.mk.injEq] at hout1 hout2
  obtain ⟨hfe1, hce1, hbe1⟩ := hout1
  obtain ⟨hfe2, hce2, hbe2⟩ := hout2
  have hpf : files2.Perm files1 := by
    rw [hfe1, hfe2]; exact (hsp.map _).symm
  have hpc : cmap2.Perm cmap1 := by
    rw [hce1, hce2]; exact (hsp.flatMap_right _).symm
  have hpb : bmap2.Perm bmap1 := by
    rw [hbe1, hbe2]; exact (hsp.flatMap_right _).symm
  have hkf1 : files1.map Prod.fst = output1.sources.map (fun e => e.2.id) := by
    rw [hfe1, List.map_map]; rfl
  have hndf1 : (files1.map Prod.fst).Nodup := by rw [hkf1]; exact hfids
  have hkc1sub : (cmap1.map Prod.fst).Sublist (allContractIds output1) := by
    rw [hce1, List.map_flatMap]
    refine flatMap_sublist_flatMap _ _ _ (fun e he => ?_)
    obtain ⟨⟨f, dcL, dbL⟩, hd⟩ := hok1 e he
    have hnde : (sourceContractIds e).Nodup := nodup_of_flatMap_nodup hcids e he
    obtain ⟨hkeq, hsub⟩ := sourceDelta_keys input (buildAbiMap output1) e f dcL dbL hd hnde
    have hdce : deltaContractsOf input (buildAbiMap output1) e = dcL := by
      unfold deltaContractsOf; rw [hd]
    rw [hdce]
    exact hsub
  have hndc1 : (cmap1.map Prod.fst).Nodup := hcids.sublist hkc1sub
  have hkcb1 : bmap1.map Prod.fst = cmap1.map Prod.fst := by
    rw [hce1, hbe1, List.map_flatMap, List.map_flatMap]
    refine (flatMap_congr_mem (fun e he => ?_)).symm
    obtain ⟨⟨f, dcL, dbL⟩, hd⟩ := hok1 e he
    have hdce : deltaContractsOf input (buildAbiMap output1) e = dcL := by
      unfold deltaContractsOf; rw [hd]
    have hdbe : deltaBasesOf input (buildAbiMap output1) e = dbL := by
      unfold deltaBasesOf; rw [hd]
    have hnde : (sourceContractIds e).Nodup := nodup_of_flatMap_nodup hcids e he
    obtain ⟨hkeq, -⟩ := sourceDelta_keys input (buildAbiMap output1) e f dcL dbL hd hnde
    rw [hdce, hdbe, hkeq]
  have hndb1 : (bmap1.map Prod.fst).Nodup := by rw [hkcb1]; exact hndc1
  have hlkc : ∀ k, List.lookup k cmap1 = List.lookup k cmap2 :=
    fun k => lookup_perm hpc.symm hndc1 k
  have hlkb : ∀ k, List.lookup k bmap1 = List.lookup k bmap2 :=
    fun k => lookup_perm hpb.symm hndb1 k
  have hlkf : ∀ k, List.lookup k files1 = List.lookup k files2 :=
    fun k => lookup_perm hpf.symm hndf1 k
  have hM1 : model1.contractIdToContract = cmap1.map (inheritanceResolved cmap1 bmap1) :=
    applyContractsInheritance_ok_map cmap1 bmap1 _ happ1
  have hM2 : model2.contractIdToContract = cmap2.map (inheritanceResolved cmap2 bmap2) :=
    applyContractsInheritance_ok_map cmap2 bmap2 _ happ2
  have hres : ∀ entry, inheritanceResolved cmap2 bmap2 entry
      = inheritanceResolved cmap1 bmap1 entry := by
    intro entry
    unfold inheritanceResolved
    rw [← hlkb entry.1]
    have hfilter : ∀ l : List Nat,
        l.filter (fun baseId => (List.lookup baseId cmap2).isSome)
          = l.filter (fun baseId => (List.lookup baseId cmap1).isSome) :=
      fun l => List.filter_congr (fun b _ => by rw [hlkc b])
    rw [hfilter]
  have hpM : model2.contractIdToContract.Perm model1.contractIdToContract := by
    rw [hM1, hM2, List.map_congr_left (fun e _ => hres e)]
    exact hpc.map _
  have hkM1 : model1.contractIdToContract.map Prod.fst = cmap1.map Prod.fst := by
    rw [hM1, List.map_map]
    exact List.map_congr_left (fun e _ => rfl)
  have hndM1 : (model1.contractIdToContract.map Prod.fst).Nodup := by
    rw [hkM1]; exact hndc1
  rw [hf1] at hd1
  rw [hf2] at hd2
  unfold decodeBytecodes at hd1 hd2
  obtain ⟨hb1, hc1, -⟩ := decodeBytecodesGo_ok_spec v output1 files1
    model1.contractIdToContract dec1 hd1
  obtain ⟨hb2, hc2, -⟩ := decodeBytecodesGo_ok_spec v output2 files2
    model2.contractIdToContract dec2 hd2
  have hcontrib : ∀ e ∈ model2.contractIdToContract,
      contractBytecodeContribution v output2 files2 e
        = contractBytecodeContribution v output1 files1 e :=
    fun e _ => contractBytecodeContribution_congr v hc hlkf e
  have hpbytes : dec2.bytecodes.Perm dec1.bytecodes := by
    rw [hb1, hb2]
    exact perm_flatMap_congr hpM _ _ hcontrib
  have hafter : ∀ e ∈ model2.contractIdToContract,
      contractAfterDecode output2 e = contractAfterDecode output1 e :=
    fun e _ => contractAfterDecode_congr hc e
  have hpdc : dec2.contracts.Perm dec1.contracts := by
    rw [hc1, hc2, List.map_congr_left hafter]
    exact hpM.map _
  have hkdec1 : dec1.contracts.map Prod.fst
      = model1.contractIdToContract.map Prod.fst := by
    rw [hc1, List.map_map]
    refine List.map_congr_left (fun e _ => ?_)
    show (contractAfterDecode output1 e).1 = e.1
    unfold contractAfterDecode
    cases evmOutputFor output1 e.2 <;> rfl
  have hnddec1 : (dec1.contracts.map Prod.fst).Nodup := by
    rw [hkdec1]; exact hndM1
  have hnddec2 : (dec2.contracts.map Prod.fst).Nodup :=
    ((hpdc.map Prod.fst).nodup_iff).mpr hnddec1
  have hlkdec : ∀ k, List.lookup k dec2.contracts = List.lookup k dec1.contracts :=
    fun k => lookup_perm hpdc hnddec2 k
  have hcorr : (dec2.bytecodes.map (fun bc =>
      { bc with contract := { bc.contract with
          inheritedFunctions := inheritedFunctionSurface dec2.contracts bc.contract } }))
      = dec2.bytecodes.map (fun bc =>
      { bc with contract := { bc.contract with
          inheritedFunctions := inheritedFunctionSurface dec1.contracts bc.contract } }) :=
    List.map_congr_left (fun bc _ => by rw [inheritedFunctionSurface_congr hlkdec])
  rw [← h1'', ← h2'']
  unfold correctSelectors
  rw [hcorr]
  exact hpbytes.map _

/-- C8 counterexample: two compiler outputs equal up to the enumeration
order of their source files (permuted sources, identical contract table)
on which the full build produces different results — the returned bytecode
lists follow the enumeration order, so the build output is not literally
order-independent. -/
theorem claim8_counterexample :
    exOutC8A.sources.Perm exOutC8B.sources ∧
    exOutC8A.contracts = exOutC8B.contracts ∧
    createModelsAndDecodeBytecodes "0.8.0" exInC8 exOutC8A
      ≠ createModelsAndDecodeBytecodes "0.8.0" exInC8 exOutC8B := by
  refine ⟨by decide, by decide, by decide⟩

theorem claim8_witness :
    createModelsAndDecodeBytecodes "0.8.0" exInC8 exOutC8A = Except.ok exBsA ∧
    createModelsAndDecodeBytecodes "0.8.0" exInC8 exOutC8B = Except.ok exBsB ∧
    exBsB.Perm exBsA :=
  ⟨by decide, by decide,
   claim8_amended_enumeration_order_only_permutes_bytecode_list "0.8.0" exInC8 exOutC8A
     exOutC8B exBsA exBsB (by decide) (by decide) (by decide) (by decide) (by decide)
     (by decide) (by decide)⟩

end CompilerToModel
